import Mathlib

/-!
# Simple-Path-Tracer: ray casting over spheres (`pathtracer.cpp`)

A shallow embedding of `pathtracer.cpp`.  The C++ type `double` (and the `float`
parameter of the member `Vector::operator*`) is idealised as an ordered field `F`;
the two `<cmath>` functions the program calls, `sqrt` and `pow`, are supplied by the
class `CMath`.  All definitions are therefore computable and polymorphic in the
scalar type; the theorems are stated over the real numbers, where `sqrt` is
`Real.sqrt` and `pow` is `Real.rpow`.

Conventions of the embedding:
* a C++ function `bool f(..., double &t)` becomes a function into `Option F`
  (`some t` when it returns `true` after writing `t`, `none` when it returns `false`);
* a range-`for` loop over a `std::vector` becomes a recursion on (or a fold over) a `List`;
* `static_cast<int>` of a `double` is truncation toward zero inside the range of the
  32-bit `int` and `INT_MIN` outside of it, and the text
  written to `std::cout` after the header is the list of the integer triples printed;
* rounding, overflow, infinities and NaN of IEEE arithmetic are not modelled, and
  `1 / 0` is the field's `0` (the program never inspects such a value in the
  situations the theorems cover: they assume non-zero lengths where it matters).
-/

namespace PathTracer

/-- The functions of `<cmath>` used by `pathtracer.cpp`. -/
class CMath (F : Type) where
  /-- Source: `sqrt(x)` -/
  sqrt : F → F
  /-- Source: `pow(x, y)` -/
  pow : F → F → F

/-- Over the reals `sqrt` is `Real.sqrt` and `pow` is the real power function.  It is the
value of C's `pow(x, y)` for `x > 0`, and for `x = 0` with `y ≥ 0` (`pow(0, 0) = 1`); for
`x = 0` and `y < 0` C returns `+inf`, which has no counterpart here, so statements about
the value of the specular term assume a non-negative exponent. -/
noncomputable instance instCMathReal : CMath ℝ where
  sqrt := Real.sqrt
  pow := Real.rpow

/-- Source: `class Vector { double x, y, z; ... }` -/
structure Vector (F : Type) where
  x : F
  y : F
  z : F

section Defs

variable {F : Type} [LinearOrderedField F] [CMath F]

/-- Source: `Vector() : x(1), y(1), z(1) {}` : the default constructor. -/
def Vector.default : Vector F := ⟨1, 1, 1⟩

/-- Source: `Vector operator~() const { return Vector(-x, -y, -z); }` -/
def Vector.neg (v : Vector F) : Vector F := ⟨-v.x, -v.y, -v.z⟩

/-- The member `Vector operator*(const float v) const { return { x * v, y * v, z * v }; }`
(the `float` parameter is idealised as a scalar of `F`). -/
def Vector.mulFloat (a : Vector F) (v : F) : Vector F := ⟨a.x * v, a.y * v, a.z * v⟩

/-- Source: `double length() const { return sqrt(x*x + y*y + z*z); }` -/
def Vector.length (v : Vector F) : F := CMath.sqrt (v.x * v.x + v.y * v.y + v.z * v.z)

/-- Source: `Vector normalized() const { return (*this) * (1 / length()); }`
Inside the class body only the member `operator*` is declared, so that is the one called. -/
def Vector.normalized (v : Vector F) : Vector F := v.mulFloat (1 / v.length)

/-- Source: `Vector operator+(const Vector& a, const Vector& b)` -/
def Vector.add (a b : Vector F) : Vector F := ⟨a.x + b.x, a.y + b.y, a.z + b.z⟩

/-- Source: `Vector operator-(const Vector& a, const Vector& b)` -/
def Vector.sub (a b : Vector F) : Vector F := ⟨a.x - b.x, a.y - b.y, a.z - b.z⟩

/-- Source: `Vector operator*(const Vector& a, const Vector& b)` : componentwise product. -/
def Vector.mul (a b : Vector F) : Vector F := ⟨a.x * b.x, a.y * b.y, a.z * b.z⟩

/-- Source: `Vector operator*(const Vector& a, double b)` -/
def Vector.mulScalar (a : Vector F) (b : F) : Vector F := ⟨a.x * b, a.y * b, a.z * b⟩

/-- Source: `Vector operator*(double a, const Vector& b)` -/
def Vector.scalarMul (a : F) (b : Vector F) : Vector F := ⟨a * b.x, a * b.y, a * b.z⟩

/-- Source: `Vector operator/(const Vector& a, double b) { return (1/b) * a; }` -/
def Vector.divScalar (a : Vector F) (b : F) : Vector F := Vector.scalarMul (1 / b) a

/-- Source: `double dot(const Vector& a, const Vector& b)` -/
def dot (a b : Vector F) : F := a.x * b.x + a.y * b.y + a.z * b.z

/-- Source: `Vector cross(const Vector& a, const Vector& b)` -/
def cross (a b : Vector F) : Vector F :=
  ⟨a.y * b.z - a.z * b.y, a.z * b.x - a.x * b.z, a.x * b.y - a.y * b.x⟩

/-- Source: `Vector unit_vector(const Vector& v) { return v / v.length(); }` -/
def unit_vector (v : Vector F) : Vector F := v.divScalar v.length

/-- Source: `double clamp(double x, double min, double max)` -/
def clamp (x min max : F) : F := if x < min then min else (if x > max then max else x)

/-- Source: `Vector reflect(const Vector& v, const Vector& n) { return v - 2 * dot(v, n) * n; }` -/
def reflect (v n : Vector F) : Vector F := v.sub (Vector.scalarMul (2 * dot v n) n)

/-- Source: `class Light { Vector position; double intensity; }` -/
structure Light (F : Type) where
  position : Vector F
  intensity : F

/-- Source: `class Material { double refractiveIndex; double albedo[4]; Vector diffuseColor;
double specularExponent; }` -/
structure Material (F : Type) where
  refractiveIndex : F
  albedo : Fin 4 → F
  diffuseColor : Vector F
  specularExponent : F

/-- Source: `class Sphere { Vector center; double radius; Material material; }` -/
structure Sphere (F : Type) where
  center : Vector F
  radius : F
  material : Material F

/-- Source: `bool Sphere::rayIntersect(const Vector &orig, const Vector &direction, double &t) const`:
`some t` when the function writes `t` and returns `true`, `none` when it returns `false`. -/
def Sphere.rayIntersect (s : Sphere F) (orig direction : Vector F) : Option F :=
  let L := s.center.sub orig
  let tca := dot L direction
  if tca < 0 then none
  else
    let d2 := dot L L - tca * tca
    if d2 > s.radius * s.radius then none
    else
      let thc := CMath.sqrt (s.radius * s.radius - d2)
      let t0 := tca - thc
      let t1 := tca + thc
      -- `if (t0 > t1) std::swap(t0, t1);`
      let t0s := if t0 > t1 then t1 else t0
      let t1s := if t0 > t1 then t0 else t1
      if t0s < 0 then
        -- `t0 = t1; if (t0 < 0) return false;`
        if t1s < 0 then none else some t1s
      else some t0s

/-- Source: `std::numeric_limits<double>::max()` : the largest finite `double`,
`(2^53 - 1) * 2^971`. -/
def numeric_limits_max : F := (2 ^ 53 - 1) * 2 ^ 971

/-- One iteration of the loop `for (Light l : lights)` of `castRay`, acting on the pair
`(diffuseLightIntensity, specularLightIntensity)`; `point` and `N` are the locals of
`castRay` the body reads. -/
def castRay_lightStep (point N : Vector F) (specularExponent : F) (acc : F × F)
    (l : Light F) : F × F :=
  let lightDirection := (l.position.sub point).normalized
  (acc.1 + l.intensity * max 0 (dot lightDirection N),
   acc.2 + l.intensity *
     CMath.pow (max 0 (dot lightDirection (reflect lightDirection N).neg)) specularExponent)

/-- The body of the `if` of `castRay` (lines 123-139), for the sphere `s` hit at distance
`t`: the colour the function returns from inside the loop. -/
def castRay_shade (orig dir point : Vector F) (s : Sphere F) (t : F)
    (lights : List (Light F)) : Vector F :=
  let hit := orig.add (dir.mulScalar t)
  let N := (hit.sub s.center).normalized
  -- `double diffuseLightIntensity = 0.0; double specularLightIntensity = 0.0;`
  let acc := lights.foldl (castRay_lightStep point N s.material.specularExponent) (0, 0)
  ((s.material.diffuseColor.mulScalar acc.1).mulScalar (s.material.albedo 0)).add
    (((Vector.mk 1 1 1).mulScalar acc.2).mulScalar (s.material.albedo 1))

/-- The loop `for (Sphere s : spheres)` of `castRay`, with the locals `point` and
`sphereDistance` it reads.  The body of the `if` ends in `return`, so no iteration ever
runs after `sphereDistance` has been assigned. -/
def castRay_loop (orig dir : Vector F) (lights : List (Light F)) (point : Vector F)
    (sphereDistance : F) : List (Sphere F) → Vector F
  | [] => ⟨0.2, 0.7, 0.8⟩
  | s :: rest =>
    match s.rayIntersect orig dir with
    | some t =>
      if t < sphereDistance then castRay_shade orig dir point s t lights
      else castRay_loop orig dir lights point sphereDistance rest
    | none => castRay_loop orig dir lights point sphereDistance rest

/-- Source: `Vector castRay(const Vector &orig, const Vector &dir, const std::vector<Sphere> &spheres,
const std::vector<Light> &lights)`: the locals are `Vector hit, N, point;` (default
constructed) and `double sphereDistance = std::numeric_limits<double>::max();`. -/
def castRay (orig dir : Vector F) (spheres : List (Sphere F)) (lights : List (Light F)) :
    Vector F :=
  castRay_loop orig dir lights Vector.default numeric_limits_max spheres

/-- The test `s.rayIntersect(orig, dir, t) && t < sphereDistance` of `castRay`, with
`sphereDistance` at the value it has whenever the test is evaluated: the sphere `s` is
a hit for `castRay`. -/
def castRay_isHit (orig dir : Vector F) (s : Sphere F) : Bool :=
  match s.rayIntersect orig dir with
  | some t => decide (t < numeric_limits_max)
  | none => false

/-- The local `tca = dot(L, direction)` of `rayIntersect`, where `L = center - orig`. -/
def tcaOf (s : Sphere F) (orig direction : Vector F) : F :=
  dot (s.center.sub orig) direction

/-- The local `d2 = dot(L, L) - tca * tca` of `rayIntersect`. -/
def d2Of (s : Sphere F) (orig direction : Vector F) : F :=
  dot (s.center.sub orig) (s.center.sub orig) - tcaOf s orig direction * tcaOf s orig direction

/-- The local `thc = sqrt(radius * radius - d2)` of `rayIntersect`. -/
def thcOf (s : Sphere F) (orig direction : Vector F) : F :=
  CMath.sqrt (s.radius * s.radius - d2Of s orig direction)

end Defs

/-! ## Constructors, output conversion and the render loop of `main` -/

section Scene

variable {F : Type} [LinearOrderedField F] [CMath F] [FloorRing F]

/-- Source: `Material(double refr, double a, double ba, double c, double d, double r, double g,
double b, double specExp) : refractiveIndex(refr), albedo{a,ba,c,d}, diffuseColor(r, g, b),
specularExponent(specExp) {}` -/
def Material.new (refr a ba c d r g b specExp : F) : Material F :=
  ⟨refr, ![a, ba, c, d], ⟨r, g, b⟩, specExp⟩

/-- Source: `Material() : refractiveIndex(1), albedo{1,1,1,1}, diffuseColor(1,1,1),
specularExponent(0) {}` -/
def Material.default : Material F := ⟨1, ![1, 1, 1, 1], ⟨1, 1, 1⟩, 0⟩

/-- Source: `Sphere(const Vector& center, double radius, const Material &mat) : center(center),
radius(radius), material(mat) {}`; the constructor has no body and checks nothing. -/
def Sphere.new (center : Vector F) (radius : F) (mat : Material F) : Sphere F :=
  ⟨center, radius, mat⟩

/-- Source: `Sphere(double x, double y, double z, double radius, const Material& mat) :
center(x, y, z), radius(radius), material(mat) {}` -/
def Sphere.newXYZ (x y z radius : F) (mat : Material F) : Sphere F :=
  ⟨⟨x, y, z⟩, radius, mat⟩

/-- Source: `Sphere() : center(0, 0, 0), radius(1) {}`; the material is default constructed. -/
def Sphere.default : Sphere F := ⟨⟨0, 0, 0⟩, 1, Material.default⟩

/-- Source: `Light(const Vector& pos, double intense) : position(pos), intensity(intense) {}` -/
def Light.new (pos : Vector F) (intense : F) : Light F := ⟨pos, intense⟩

/-- Source: `static_cast<int>(x)` for a `double` `x`: truncation toward zero when the
truncated value fits the 32-bit `int`, that is for `-2^31 - 1 < x < 2^31`.  Outside
that range the conversion is undefined in C++; the value is then taken to be
`INT_MIN = -2147483648`, which is what the conversion yields on x86-64. -/
def static_cast_int (x : F) : ℤ :=
  if -2147483649 < x ∧ x < 2147483648 then (if 0 ≤ x then ⌊x⌋ else ⌈x⌉) else -2147483648

/-- Source: `void printColor(std::ostream& out, const Color& v)`: the three integers written on
one line of the output. -/
def printColor (v : Vector F) : ℤ × ℤ × ℤ :=
  (static_cast_int (255 * v.x), static_cast_int (255 * v.y), static_cast_int (255 * v.z))

/-- Source: `constexpr int imageWidth = 1024;` -/
def imageWidth : ℕ := 1024

/-- Source: `constexpr int imageHeight = 768;` -/
def imageHeight : ℕ := 768

/-- Source: `Material ivory = Material(1.0, 0.9, 0.5, 0.1, 0.0, 0.4, 0.4, 0.3, 50);` -/
def ivory : Material F := Material.new 1.0 0.9 0.5 0.1 0.0 0.4 0.4 0.3 50

/-- Source: `Material red_rubber = Material(1.0, 1.4, 0.3, 0.0, 0.0, 0.3, 0.1, 0.1, 10);` -/
def red_rubber : Material F := Material.new 1.0 1.4 0.3 0.0 0.0 0.3 0.1 0.1 10

/-- The vector `spheres` of `main` after its four `push_back` calls. -/
def main_spheres : List (Sphere F) :=
  [Sphere.new ⟨-3, 0, -16⟩ 2 ivory,
   Sphere.new ⟨-1.0, -1.5, -12⟩ 2 red_rubber,
   Sphere.new ⟨1.5, -0.5, -18⟩ 3 red_rubber,
   Sphere.new ⟨7, 5, -18⟩ 4 ivory]

/-- The vector `lights` of `main`: `lights.push_back(Light(Vector(-20, 20, 20), 3.0));` -/
def main_lights : List (Light F) := [Light.new ⟨-20, 20, 20⟩ 3.0]

/-- The vector `Vector(x, y, -1)` of the body of the inner loop of `main`, with
`x = (2 * (i + 0.5) / imageWidth - 1) * imageWidth / imageHeight` and
`y = (2 * (j + 0.5) / imageHeight - 1)`. -/
def main_pixelVector (i j : ℕ) : Vector F :=
  ⟨(2 * ((i : F) + 0.5) / (imageWidth : F) - 1) * (imageWidth : F) / (imageHeight : F),
   2 * ((j : F) + 0.5) / (imageHeight : F) - 1,
   -1⟩

/-- Source: `Vector dir = unit_vector(Vector(x, y, -1));` -/
def main_dir (i j : ℕ) : Vector F := unit_vector (main_pixelVector i j)

/-- The colour computed for pixel `(i, j)`:
`castRay(Vector(0, 0, 0), dir, spheres, lights)`. -/
def main_color (i j : ℕ) : Vector F :=
  castRay ⟨0, 0, 0⟩ (main_dir i j) main_spheres main_lights

/-- The body of the inner loop of `main`: the triple printed for pixel `(i, j)`. -/
def main_pixel (i j : ℕ) : ℤ × ℤ × ℤ := printColor (main_color (F := F) i j)

/-- The inner loop `for (int i = 0; i < imageWidth; ++i)` of `main` for the row `j`:
the triples it prints, in order. -/
def main_row (j : ℕ) : List (ℤ × ℤ × ℤ) :=
  (List.range imageWidth).map (fun i => main_pixel (F := F) i j)

/-- The outer loop `for (int j = ...; j >= 0; --j)` of `main`, entered with `j = n - 1`:
the rows `n - 1`, `n - 2`, ..., `0`, in that order. -/
def main_rows : ℕ → List (ℤ × ℤ × ℤ)
  | 0 => []
  | n + 1 => main_row (F := F) n ++ main_rows n

/-- The colour triples printed by `main` after the header, in order: the outer loop
starts at `j = imageHeight - 1`. -/
def main_output : List (ℤ × ℤ × ℤ) := main_rows (F := F) imageHeight

/-- The first sphere of the scene of `main`: `Sphere(Vector(-3, 0, -16), 2, ivory)`. -/
def main_sphere1 : Sphere F := Sphere.new ⟨-3, 0, -16⟩ 2 ivory

/-- The light of the scene of `main`: `Light(Vector(-20, 20, 20), 3.0)`. -/
def main_light : Light F := Light.new ⟨-20, 20, 20⟩ 3.0

/-- The vector `Vector(x, y, -1)` of `main` for the pixel `i = 402`, `j = 412`. -/
def brightVector : Vector F := ⟨-(219 / 768), 57 / 768, -1⟩

/-- The reading of `castRay` as a search for the first intersected sphere of the list:
the background colour for the empty list; for `s :: rest` the shaded colour of `s` if
`rayIntersect` succeeds on `s` with `t` below the initial bound, and otherwise the value
on `rest`. -/
def castRay_firstHit (orig dir : Vector F) (lights : List (Light F)) :
    List (Sphere F) → Vector F
  | [] => ⟨0.2, 0.7, 0.8⟩
  | s :: rest =>
    match s.rayIntersect orig dir with
    | some t =>
      if t < numeric_limits_max then castRay_shade orig dir Vector.default s t lights
      else castRay_firstHit orig dir lights rest
    | none => castRay_firstHit orig dir lights rest

/-- The colour of the body of the `if` of `castRay` as a function of the surface normal
`N` alone (besides the material, the lights and the local `point`). -/
def castRay_shadeOfNormal (N point : Vector F) (m : Material F) (lights : List (Light F)) :
    Vector F :=
  let acc := lights.foldl (castRay_lightStep point N m.specularExponent) (0, 0)
  ((m.diffuseColor.mulScalar acc.1).mulScalar (m.albedo 0)).add
    (((Vector.mk 1 1 1).mulScalar acc.2).mulScalar (m.albedo 1))

end Scene

/-! ## Concrete inputs used to instantiate the theorems -/

section Examples

variable {F : Type} [LinearOrderedField F]

/-- The camera position of `main`: `Vector(0, 0, 0)`. -/
def exOrigin : Vector F := ⟨0, 0, 0⟩

/-- A ray direction looking down the negative z axis. -/
def exDir : Vector F := ⟨0, 0, -1⟩

/-- The material `Material(1.0, 1.0, 0.0, 0.0, 0.0, 1.0, 0.0, 0.0, 1)`: pure diffuse red. -/
def exRed : Material F := ⟨1, ![1, 0, 0, 0], ⟨1, 0, 0⟩, 1⟩

/-- The material `Material(1.0, 1.0, 0.0, 0.0, 0.0, 0.0, 1.0, 0.0, 1)`: pure diffuse green. -/
def exGreen : Material F := ⟨1, ![1, 0, 0, 0], ⟨0, 1, 0⟩, 1⟩

/-- The sphere `Sphere(Vector(0, 0, -5), 1, exGreen)`. -/
def exNear : Sphere F := ⟨⟨0, 0, -5⟩, 1, exGreen⟩

/-- The sphere `Sphere(Vector(0, 0, -10), 1, exRed)`. -/
def exFar : Sphere F := ⟨⟨0, 0, -10⟩, 1, exRed⟩

/-- The sphere `Sphere(Vector(0, 0, 1), 2, exRed)`: it contains the origin, and its centre
is behind a ray that leaves the origin along `exDir`. -/
def exBehind : Sphere F := ⟨⟨0, 0, 1⟩, 2, exRed⟩

/-- The sphere `Sphere(Vector(0, 0, -1), 1, exRed)`: the origin is on its surface. -/
def exTouch : Sphere F := ⟨⟨0, 0, -1⟩, 1, exRed⟩

/-- The light `Light(Vector(1, 1, 2), 1.0)`. -/
def exLight : Light F := ⟨⟨1, 1, 2⟩, 1⟩

/-- The sphere `Sphere(Vector(0, 0, -5), 1, Material(1.0, 1.0, 0.0, 0.0, 0.0, 1e8, 0.0, 0.0, 1))`:
a purely diffuse material whose red component is `10^8`. -/
def exHuge : Sphere F := ⟨⟨0, 0, -5⟩, 1, ⟨1, ![1, 0, 0, 0], ⟨100000000, 0, 0⟩, 1⟩⟩

end Examples

/-! ## Auxiliary facts over the reals -/

section Lemmas

theorem sqrt_real (x : ℝ) : CMath.sqrt x = Real.sqrt x := rfl

theorem pow_real (x y : ℝ) : CMath.pow x y = Real.rpow x y := rfl

theorem dot_self_nonneg (v : Vector ℝ) : 0 ≤ dot v v := by
  unfold dot
  nlinarith [mul_self_nonneg v.x, mul_self_nonneg v.y, mul_self_nonneg v.z]

theorem length_eq_sqrt_dot (v : Vector ℝ) : v.length = Real.sqrt (dot v v) := rfl

theorem length_nonneg (v : Vector ℝ) : 0 ≤ v.length := by
  rw [length_eq_sqrt_dot]; exact Real.sqrt_nonneg _

theorem length_mul_self (v : Vector ℝ) : v.length * v.length = dot v v := by
  rw [length_eq_sqrt_dot]; exact Real.mul_self_sqrt (dot_self_nonneg v)

/-- For `r ≥ 0`, `length v = r` says `dot v v = r * r`. -/
theorem length_eq_iff (v : Vector ℝ) (r : ℝ) (hr : 0 ≤ r) :
    v.length = r ↔ dot v v = r * r := by
  constructor
  · intro h; rw [← h, length_mul_self]
  · intro h; rw [length_eq_sqrt_dot, h]; exact Real.sqrt_mul_self hr

theorem thcOf_nonneg (s : Sphere ℝ) (orig direction : Vector ℝ) :
    0 ≤ thcOf s orig direction := Real.sqrt_nonneg _

theorem thcOf_mul_self (s : Sphere ℝ) (orig direction : Vector ℝ)
    (h : d2Of s orig direction ≤ s.radius * s.radius) :
    thcOf s orig direction * thcOf s orig direction
      = s.radius * s.radius - d2Of s orig direction :=
  Real.mul_self_sqrt (by linarith)

/-- The body of `rayIntersect`, written with the names of its locals. -/
theorem rayIntersect_unfold (s : Sphere ℝ) (orig direction : Vector ℝ) :
    s.rayIntersect orig direction =
      if tcaOf s orig direction < 0 then none
      else if d2Of s orig direction > s.radius * s.radius then none
      else if (if tcaOf s orig direction - thcOf s orig direction
                  > tcaOf s orig direction + thcOf s orig direction
               then tcaOf s orig direction + thcOf s orig direction
               else tcaOf s orig direction - thcOf s orig direction) < 0
        then (if (if tcaOf s orig direction - thcOf s orig direction
                    > tcaOf s orig direction + thcOf s orig direction
                  then tcaOf s orig direction - thcOf s orig direction
                  else tcaOf s orig direction + thcOf s orig direction) < 0
              then none
              else some (if tcaOf s orig direction - thcOf s orig direction
                    > tcaOf s orig direction + thcOf s orig direction
                  then tcaOf s orig direction - thcOf s orig direction
                  else tcaOf s orig direction + thcOf s orig direction))
        else some (if tcaOf s orig direction - thcOf s orig direction
                  > tcaOf s orig direction + thcOf s orig direction
               then tcaOf s orig direction + thcOf s orig direction
               else tcaOf s orig direction - thcOf s orig direction) := rfl

/-- The first early rejection of `rayIntersect`: `if (tca < 0) return false;`. -/
theorem rayIntersect_of_tca_neg (s : Sphere ℝ) (orig direction : Vector ℝ)
    (h : tcaOf s orig direction < 0) : s.rayIntersect orig direction = none := by
  rw [rayIntersect_unfold, if_pos h]

/-- The second early rejection of `rayIntersect`: `if (d2 > radius * radius) return false;`. -/
theorem rayIntersect_of_d2_gt (s : Sphere ℝ) (orig direction : Vector ℝ)
    (h : d2Of s orig direction > s.radius * s.radius) :
    s.rayIntersect orig direction = none := by
  rw [rayIntersect_unfold, if_pos h]
  split_ifs <;> rfl

/-- Past the two early rejections `rayIntersect` returns `true`, with the entry distance
`tca - thc` when that is not negative and the exit distance `tca + thc` otherwise. -/
theorem rayIntersect_of_pass (s : Sphere ℝ) (orig direction : Vector ℝ)
    (h1 : 0 ≤ tcaOf s orig direction)
    (h2 : d2Of s orig direction ≤ s.radius * s.radius) :
    s.rayIntersect orig direction
      = some (if tcaOf s orig direction - thcOf s orig direction < 0
              then tcaOf s orig direction + thcOf s orig direction
              else tcaOf s orig direction - thcOf s orig direction) := by
  have hthc := thcOf_nonneg s orig direction
  have h1n : ¬ tcaOf s orig direction < 0 := not_lt.mpr h1
  have h2n : ¬ d2Of s orig direction > s.radius * s.radius := not_lt.mpr h2
  have hsw : ¬ tcaOf s orig direction - thcOf s orig direction
      > tcaOf s orig direction + thcOf s orig direction := by
    intro h; linarith
  have hex : ¬ tcaOf s orig direction + thcOf s orig direction < 0 := by
    intro h; linarith
  rw [rayIntersect_unfold, if_neg h1n, if_neg h2n]
  simp only [if_neg hsw, if_neg hex]
  split_ifs <;> rfl

/-- What a `true` result of `rayIntersect` means. -/
theorem rayIntersect_eq_some (s : Sphere ℝ) (orig direction : Vector ℝ) (t : ℝ)
    (h : s.rayIntersect orig direction = some t) :
    0 ≤ tcaOf s orig direction ∧ d2Of s orig direction ≤ s.radius * s.radius ∧
    t = (if tcaOf s orig direction - thcOf s orig direction < 0
         then tcaOf s orig direction + thcOf s orig direction
         else tcaOf s orig direction - thcOf s orig direction) := by
  by_cases h1 : tcaOf s orig direction < 0
  · rw [rayIntersect_of_tca_neg s orig direction h1] at h; exact absurd h (by simp)
  · by_cases h2 : d2Of s orig direction > s.radius * s.radius
    · rw [rayIntersect_of_d2_gt s orig direction h2] at h; exact absurd h (by simp)
    · rw [rayIntersect_of_pass s orig direction (not_lt.mp h1) (not_lt.mp h2)] at h
      exact ⟨not_lt.mp h1, not_lt.mp h2, (Option.some.inj h).symm⟩

/-- Squared distance from the centre of the point at parameter `u` of a ray with a
unit direction. -/
theorem dot_ray_point (s : Sphere ℝ) (orig direction : Vector ℝ) (u : ℝ)
    (hd : dot direction direction = 1) :
    dot ((orig.add (direction.mulScalar u)).sub s.center)
        ((orig.add (direction.mulScalar u)).sub s.center)
      = (u - tcaOf s orig direction) * (u - tcaOf s orig direction)
        + d2Of s orig direction := by
  unfold d2Of tcaOf
  simp only [dot, Vector.sub, Vector.add, Vector.mulScalar] at *
  linear_combination (u * u) * hd

theorem dot_self_of_length_one (v : Vector ℝ) (h : v.length = 1) : dot v v = 1 := by
  have := (length_eq_iff v 1 zero_le_one).mp h
  simpa using this

/-- A point of the ray (unit direction) at parameter `u` is on the surface exactly when
`u` is one of the two roots `tca - thc`, `tca + thc`. -/
theorem on_surface_iff (s : Sphere ℝ) (orig direction : Vector ℝ) (u : ℝ)
    (hd : dot direction direction = 1) (hr : 0 ≤ s.radius)
    (h2 : d2Of s orig direction ≤ s.radius * s.radius) :
    ((orig.add (direction.mulScalar u)).sub s.center).length = s.radius ↔
      (u = tcaOf s orig direction - thcOf s orig direction ∨
       u = tcaOf s orig direction + thcOf s orig direction) := by
  rw [length_eq_iff _ _ hr, dot_ray_point s orig direction u hd]
  have hq := thcOf_mul_self s orig direction h2
  constructor
  · intro h
    have hz : (u - (tcaOf s orig direction - thcOf s orig direction))
        * (u - (tcaOf s orig direction + thcOf s orig direction)) = 0 := by
      linear_combination h - hq
    rcases mul_eq_zero.mp hz with h0 | h0
    · left; linarith
    · right; linarith
  · rintro (h | h)
    · rw [h]; linear_combination hq
    · rw [h]; linear_combination hq

/-- When `d2 > radius^2` no point of the line is on the surface. -/
theorem not_on_surface_of_d2_gt (s : Sphere ℝ) (orig direction : Vector ℝ) (u : ℝ)
    (hd : dot direction direction = 1) (hr : 0 ≤ s.radius)
    (h2 : d2Of s orig direction > s.radius * s.radius) :
    ((orig.add (direction.mulScalar u)).sub s.center).length ≠ s.radius := by
  rw [Ne, length_eq_iff _ _ hr, dot_ray_point s orig direction u hd]
  intro h
  nlinarith [mul_self_nonneg (u - tcaOf s orig direction)]

/-- A `true` result of `rayIntersect` (unit direction, positive radius) is the nearest
point of the surface on the half-line. -/
theorem rayIntersect_sound (s : Sphere ℝ) (orig direction : Vector ℝ)
    (hdir : direction.length = 1) (hr : 0 < s.radius) :
    ∀ t, s.rayIntersect orig direction = some t →
      0 ≤ t ∧
      ((orig.add (direction.mulScalar t)).sub s.center).length = s.radius ∧
      ∀ t', 0 ≤ t' → t' < t →
        ((orig.add (direction.mulScalar t')).sub s.center).length ≠ s.radius := by
  have hd := dot_self_of_length_one direction hdir
  intro t ht
  obtain ⟨h1, h2, ht⟩ := rayIntersect_eq_some s orig direction t ht
  have hthc := thcOf_nonneg s orig direction
  by_cases hc : tcaOf s orig direction - thcOf s orig direction < 0
  · rw [if_pos hc] at ht
    refine ⟨by linarith, ?_, ?_⟩
    · exact (on_surface_iff s orig direction t hd hr.le h2).mpr (Or.inr ht)
    · intro t' h0 hlt hon
      rcases (on_surface_iff s orig direction t' hd hr.le h2).mp hon with h | h
      · linarith
      · linarith
  · rw [if_neg hc] at ht
    refine ⟨by linarith, ?_, ?_⟩
    · exact (on_surface_iff s orig direction t hd hr.le h2).mpr (Or.inl ht)
    · intro t' h0 hlt hon
      rcases (on_surface_iff s orig direction t' hd hr.le h2).mp hon with h | h
      · linarith
      · linarith

/-- For a vector of non-zero length `dot(v, unit_vector(v)) = length(v)`. -/
theorem dot_unit_vector (v : Vector ℝ) (h : v.length ≠ 0) :
    dot v (unit_vector v) = v.length := by
  have hm := length_mul_self v
  have e : dot v (unit_vector v) = 1 / v.length * dot v v := by
    simp only [dot, unit_vector, Vector.divScalar, Vector.scalarMul]; ring
  rw [e, ← hm]; field_simp

/-- For a vector of non-zero length `dot(unit_vector(v), unit_vector(v)) = 1`. -/
theorem dot_unit_vector_self (v : Vector ℝ) (h : v.length ≠ 0) :
    dot (unit_vector v) (unit_vector v) = 1 := by
  have hm := length_mul_self v
  have e : dot (unit_vector v) (unit_vector v)
      = 1 / v.length * (1 / v.length) * dot v v := by
    simp only [dot, unit_vector, Vector.divScalar, Vector.scalarMul]; ring
  rw [e, ← hm]; field_simp

/-- An origin strictly outside the sphere: `dot(L, L) > radius^2`. -/
theorem dot_gt_of_outside (s : Sphere ℝ) (orig : Vector ℝ) (hr : 0 < s.radius)
    (hout : (s.center.sub orig).length > s.radius) :
    dot (s.center.sub orig) (s.center.sub orig) > s.radius * s.radius := by
  rw [← length_mul_self]; nlinarith

/-- An origin strictly inside the sphere: `dot(L, L) < radius^2`. -/
theorem dot_lt_of_inside (s : Sphere ℝ) (orig : Vector ℝ)
    (hin : (s.center.sub orig).length < s.radius) :
    dot (s.center.sub orig) (s.center.sub orig) < s.radius * s.radius := by
  have h0 := length_nonneg (s.center.sub orig)
  rw [← length_mul_self]; nlinarith

end Lemmas

/-! ## Ray-sphere intersection -/

section RayIntersect

theorem exDir_length : (exDir : Vector ℝ).length = 1 := by
  simp [exDir, Vector.length, sqrt_real]

/-- C2: for a unit direction and a sphere of positive radius, a `true` result of
`rayIntersect` with distance `t` has `t ≥ 0`, the point `orig + direction * t` is on the
sphere surface, and no parameter `0 ≤ t' < t` gives a point of the surface; and if no
point of the half-line is on the surface, `rayIntersect` returns `false`. -/
theorem rayIntersect_nearest (s : Sphere ℝ) (orig direction : Vector ℝ)
    (hdir : direction.length = 1) (hr : 0 < s.radius) :
    (∀ t, s.rayIntersect orig direction = some t →
      0 ≤ t ∧
      ((orig.add (direction.mulScalar t)).sub s.center).length = s.radius ∧
      ∀ t', 0 ≤ t' → t' < t →
        ((orig.add (direction.mulScalar t')).sub s.center).length ≠ s.radius) ∧
    ((∀ u, 0 ≤ u → ((orig.add (direction.mulScalar u)).sub s.center).length ≠ s.radius) →
      s.rayIntersect orig direction = none) := by
  have main := rayIntersect_sound s orig direction hdir hr
  refine ⟨main, ?_⟩
  intro hmiss
  cases hres : s.rayIntersect orig direction with
  | none => rfl
  | some t =>
    obtain ⟨h0, hon, _⟩ := main t hres
    exact absurd hon (hmiss t h0)

/-- Instance of `rayIntersect_nearest` at the sphere `exNear` seen from the origin. -/
theorem rayIntersect_nearest_witness :
    (exDir : Vector ℝ).length = 1 ∧ (0 : ℝ) < (exNear : Sphere ℝ).radius ∧
    ((∀ t, (exNear : Sphere ℝ).rayIntersect exOrigin exDir = some t →
      0 ≤ t ∧
      ((exOrigin.add (exDir.mulScalar t)).sub (exNear : Sphere ℝ).center).length
        = (exNear : Sphere ℝ).radius ∧
      ∀ t', 0 ≤ t' → t' < t →
        ((exOrigin.add (exDir.mulScalar t')).sub (exNear : Sphere ℝ).center).length
          ≠ (exNear : Sphere ℝ).radius) ∧
    ((∀ u, 0 ≤ u →
        ((exOrigin.add (exDir.mulScalar u)).sub (exNear : Sphere ℝ).center).length
          ≠ (exNear : Sphere ℝ).radius) →
      (exNear : Sphere ℝ).rayIntersect exOrigin exDir = none)) :=
  ⟨exDir_length, by simp [exNear],
    rayIntersect_nearest exNear exOrigin exDir exDir_length (by simp [exNear])⟩

/-- A sphere centred on the negative z axis at depth `c`, of radius `r ≤ c`, is hit
by the ray leaving the origin along `exDir` at distance `c - r`. -/
theorem rayIntersect_axis (c r : ℝ) (m : Material ℝ) (hr : 0 ≤ r) (hc : r ≤ c) :
    (Sphere.mk ⟨0, 0, -c⟩ r m).rayIntersect exOrigin exDir = some (c - r) := by
  have htca : tcaOf (Sphere.mk ⟨0, 0, -c⟩ r m) exOrigin exDir = c := by
    simp only [tcaOf, dot, Vector.sub, exOrigin, exDir]; ring
  have hd2 : d2Of (Sphere.mk ⟨0, 0, -c⟩ r m) exOrigin exDir = 0 := by
    unfold d2Of; rw [htca]
    simp only [dot, Vector.sub, exOrigin]; ring
  have hthc : thcOf (Sphere.mk ⟨0, 0, -c⟩ r m) exOrigin exDir = r := by
    unfold thcOf; rw [hd2, sqrt_real, sub_zero]
    exact Real.sqrt_mul_self hr
  rw [rayIntersect_of_pass _ _ _ (by rw [htca]; linarith)
    (by rw [hd2]; exact mul_self_nonneg _), htca, hthc, if_neg (by linarith)]

theorem exNear_rayIntersect : (exNear : Sphere ℝ).rayIntersect exOrigin exDir = some 4 := by
  have h := rayIntersect_axis 5 1 exGreen (by norm_num) (by norm_num)
  norm_num at h
  exact h

theorem exFar_rayIntersect : (exFar : Sphere ℝ).rayIntersect exOrigin exDir = some 9 := by
  have h := rayIntersect_axis 10 1 exRed (by norm_num) (by norm_num)
  norm_num at h
  exact h

theorem exTouch_rayIntersect : (exTouch : Sphere ℝ).rayIntersect exOrigin exDir = some 0 := by
  have h := rayIntersect_axis 1 1 exRed (by norm_num) (by norm_num)
  norm_num at h
  exact h

theorem exNear_L_length : ((exNear : Sphere ℝ).center.sub exOrigin).length = 5 := by
  rw [length_eq_iff _ _ (by norm_num)]
  simp only [dot, Vector.sub, exNear, exOrigin]; norm_num

theorem exBehind_L_length : ((exBehind : Sphere ℝ).center.sub exOrigin).length = 1 := by
  rw [length_eq_iff _ _ (by norm_num)]
  simp only [dot, Vector.sub, exBehind, exOrigin]; norm_num

/-- C3: from an origin strictly outside a sphere of positive radius, the ray aimed at
the centre is intersected at distance `|center - orig| - radius`. -/
theorem rayIntersect_towards_center (s : Sphere ℝ) (orig : Vector ℝ)
    (hr : 0 < s.radius) (hout : (s.center.sub orig).length > s.radius) :
    s.rayIntersect orig (unit_vector (s.center.sub orig))
      = some ((s.center.sub orig).length - s.radius) := by
  have hne : (s.center.sub orig).length ≠ 0 := by
    intro h; rw [h] at hout; linarith
  have htca : tcaOf s orig (unit_vector (s.center.sub orig)) = (s.center.sub orig).length :=
    dot_unit_vector _ hne
  have hd2 : d2Of s orig (unit_vector (s.center.sub orig)) = 0 := by
    unfold d2Of; rw [htca, length_mul_self]; ring
  have hthc : thcOf s orig (unit_vector (s.center.sub orig)) = s.radius := by
    unfold thcOf; rw [hd2, sqrt_real, sub_zero]; exact Real.sqrt_mul_self hr.le
  have hpass := rayIntersect_of_pass s orig (unit_vector (s.center.sub orig))
    (by rw [htca]; exact length_nonneg _) (by rw [hd2]; exact mul_self_nonneg _)
  rw [hpass, htca, hthc, if_neg (by linarith)]

/-- Instance of `rayIntersect_towards_center` at the sphere `exNear` seen from the origin. -/
theorem rayIntersect_towards_center_witness :
    (0 : ℝ) < (exNear : Sphere ℝ).radius ∧
    ((exNear : Sphere ℝ).center.sub exOrigin).length > (exNear : Sphere ℝ).radius ∧
    (exNear : Sphere ℝ).rayIntersect exOrigin
        (unit_vector ((exNear : Sphere ℝ).center.sub exOrigin))
      = some (((exNear : Sphere ℝ).center.sub exOrigin).length - (exNear : Sphere ℝ).radius) :=
  ⟨by simp [exNear], by rw [exNear_L_length]; simp [exNear],
    rayIntersect_towards_center exNear exOrigin (by simp [exNear])
      (by rw [exNear_L_length]; simp [exNear])⟩

/-- C4: from an origin strictly outside a sphere of positive radius and for a unit
direction, `rayIntersect` returns `true` exactly when some point of the half-line is on
the surface; in particular when `tca < 0` no point of the half-line is on the surface. -/
theorem rayIntersect_iff_meets_of_outside (s : Sphere ℝ) (orig direction : Vector ℝ)
    (hr : 0 < s.radius) (hout : (s.center.sub orig).length > s.radius)
    (hdir : direction.length = 1) :
    ((s.rayIntersect orig direction).isSome = true ↔
      ∃ u, 0 ≤ u ∧ ((orig.add (direction.mulScalar u)).sub s.center).length = s.radius) ∧
    (dot (s.center.sub orig) direction < 0 →
      ∀ u, 0 ≤ u → ((orig.add (direction.mulScalar u)).sub s.center).length ≠ s.radius) := by
  have hd := dot_self_of_length_one direction hdir
  have hL := dot_gt_of_outside s orig hr hout
  have hthc := thcOf_nonneg s orig direction
  -- with `tca < 0` both roots are negative, or there is no root at all
  have hneg : tcaOf s orig direction < 0 →
      ∀ u, 0 ≤ u → ((orig.add (direction.mulScalar u)).sub s.center).length ≠ s.radius := by
    intro htca u hu hon
    by_cases h2 : d2Of s orig direction > s.radius * s.radius
    · exact not_on_surface_of_d2_gt s orig direction u hd hr.le h2 hon
    · have h2 := not_lt.mp h2
      have hq := thcOf_mul_self s orig direction h2
      have hlt : thcOf s orig direction < - tcaOf s orig direction := by
        by_contra hge
        have hge := not_lt.mp hge
        have : tcaOf s orig direction * tcaOf s orig direction
            ≤ thcOf s orig direction * thcOf s orig direction := by nlinarith
        unfold d2Of at hq
        linarith
      rcases (on_surface_iff s orig direction u hd hr.le h2).mp hon with h | h
      · linarith
      · linarith
  refine ⟨⟨?_, ?_⟩, hneg⟩
  · intro h
    obtain ⟨t, ht⟩ := Option.isSome_iff_exists.mp h
    obtain ⟨h0, hon, _⟩ := rayIntersect_sound s orig direction hdir hr t ht
    exact ⟨t, h0, hon⟩
  · rintro ⟨u, hu, hon⟩
    have h1 : 0 ≤ tcaOf s orig direction := by
      by_contra h; exact hneg (not_le.mp h) u hu hon
    have h2 : d2Of s orig direction ≤ s.radius * s.radius := by
      by_contra h
      exact not_on_surface_of_d2_gt s orig direction u hd hr.le (not_le.mp h) hon
    rw [rayIntersect_of_pass s orig direction h1 h2]; rfl

/-- Instance of `rayIntersect_iff_meets_of_outside` at the sphere `exNear`. -/
theorem rayIntersect_iff_meets_of_outside_witness :
    (0 : ℝ) < (exNear : Sphere ℝ).radius ∧
    ((exNear : Sphere ℝ).center.sub exOrigin).length > (exNear : Sphere ℝ).radius ∧
    (exDir : Vector ℝ).length = 1 ∧
    (((exNear : Sphere ℝ).rayIntersect exOrigin exDir).isSome = true ↔
      ∃ u, 0 ≤ u ∧
        ((exOrigin.add (exDir.mulScalar u)).sub (exNear : Sphere ℝ).center).length
          = (exNear : Sphere ℝ).radius) ∧
    (dot ((exNear : Sphere ℝ).center.sub exOrigin) exDir < 0 →
      ∀ u, 0 ≤ u →
        ((exOrigin.add (exDir.mulScalar u)).sub (exNear : Sphere ℝ).center).length
          ≠ (exNear : Sphere ℝ).radius) :=
  ⟨by simp [exNear], by rw [exNear_L_length]; simp [exNear], exDir_length,
    rayIntersect_iff_meets_of_outside exNear exOrigin exDir (by simp [exNear])
      (by rw [exNear_L_length]; simp [exNear]) exDir_length⟩

/-- C5, as stated, fails: the origin is strictly inside `exBehind` and `exDir` has unit
length, yet `rayIntersect` returns `false` (the rejection `tca < 0` fires, `tca = -1`),
although the exit distance `tca + thc` is `1`. -/
theorem rayIntersect_inside_rejected :
    (0 : ℝ) < (exBehind : Sphere ℝ).radius ∧
    ((exBehind : Sphere ℝ).center.sub exOrigin).length < (exBehind : Sphere ℝ).radius ∧
    (exDir : Vector ℝ).length = 1 ∧
    (exBehind : Sphere ℝ).rayIntersect exOrigin exDir = none ∧
    dot ((exBehind : Sphere ℝ).center.sub exOrigin) exDir
      + Real.sqrt ((exBehind : Sphere ℝ).radius * (exBehind : Sphere ℝ).radius
          - (dot ((exBehind : Sphere ℝ).center.sub exOrigin)
                 ((exBehind : Sphere ℝ).center.sub exOrigin)
             - dot ((exBehind : Sphere ℝ).center.sub exOrigin) exDir
               * dot ((exBehind : Sphere ℝ).center.sub exOrigin) exDir)) = 1 := by
  refine ⟨by simp [exBehind], by rw [exBehind_L_length]; simp [exBehind], exDir_length, ?_, ?_⟩
  · apply rayIntersect_of_tca_neg
    simp only [tcaOf, dot, Vector.sub, exBehind, exOrigin, exDir]; norm_num
  · simp only [dot, Vector.sub, exBehind, exOrigin, exDir]
    have e : (2 : ℝ) * 2 - ((0 - 0) * (0 - 0) + (0 - 0) * (0 - 0) + (1 - 0) * (1 - 0)
        - ((0 - 0) * 0 + (0 - 0) * 0 + (1 - 0) * -1) * ((0 - 0) * 0 + (0 - 0) * 0 + (1 - 0) * -1))
          = 2 * 2 := by norm_num
    rw [e, Real.sqrt_mul_self (by norm_num)]; norm_num

/-- C5, amended: from an origin strictly inside a sphere of positive radius and for a
unit direction, `rayIntersect` returns `true` with the exit distance `tca + thc` when
`tca ≥ 0`, and returns `false` when `tca < 0`. -/
theorem rayIntersect_inside (s : Sphere ℝ) (orig direction : Vector ℝ)
    (hr : 0 < s.radius) (hin : (s.center.sub orig).length < s.radius)
    (hdir : direction.length = 1) :
    (0 ≤ dot (s.center.sub orig) direction →
      s.rayIntersect orig direction
        = some (dot (s.center.sub orig) direction
            + Real.sqrt (s.radius * s.radius
                - (dot (s.center.sub orig) (s.center.sub orig)
                   - dot (s.center.sub orig) direction * dot (s.center.sub orig) direction)))) ∧
    (dot (s.center.sub orig) direction < 0 → s.rayIntersect orig direction = none) := by
  have hL := dot_lt_of_inside s orig hin
  have hthc := thcOf_nonneg s orig direction
  refine ⟨?_, fun h => rayIntersect_of_tca_neg s orig direction h⟩
  intro h1
  have h1 : 0 ≤ tcaOf s orig direction := h1
  have h2 : d2Of s orig direction ≤ s.radius * s.radius := by
    unfold d2Of; nlinarith [mul_self_nonneg (tcaOf s orig direction)]
  have hq := thcOf_mul_self s orig direction h2
  have hlt : tcaOf s orig direction - thcOf s orig direction < 0 := by
    by_contra hge
    have hge := not_lt.mp hge
    have : thcOf s orig direction * thcOf s orig direction
        ≤ tcaOf s orig direction * tcaOf s orig direction := by nlinarith
    unfold d2Of at hq
    linarith
  rw [rayIntersect_of_pass s orig direction h1 h2, if_pos hlt]
  rfl

/-- Instance of `rayIntersect_inside` at the sphere `exBehind`, which contains the origin. -/
theorem rayIntersect_inside_witness :
    (0 : ℝ) < (exBehind : Sphere ℝ).radius ∧
    ((exBehind : Sphere ℝ).center.sub exOrigin).length < (exBehind : Sphere ℝ).radius ∧
    (exDir : Vector ℝ).length = 1 ∧
    (dot ((exBehind : Sphere ℝ).center.sub exOrigin) exDir < 0 →
      (exBehind : Sphere ℝ).rayIntersect exOrigin exDir = none) :=
  ⟨by simp [exBehind], by rw [exBehind_L_length]; simp [exBehind], exDir_length,
    (rayIntersect_inside exBehind exOrigin exDir (by simp [exBehind])
      (by rw [exBehind_L_length]; simp [exBehind]) exDir_length).2⟩

/-- C6, as stated, fails: the origin is on the surface of `exTouch`, and for the unit
direction `exDir` `rayIntersect` returns `true` with `t = 0`. -/
theorem rayIntersect_zero_distance :
    (exDir : Vector ℝ).length = 1 ∧ (0 : ℝ) < (exTouch : Sphere ℝ).radius ∧
    (exTouch : Sphere ℝ).rayIntersect exOrigin exDir = some 0 ∧ ¬ ((0 : ℝ) < 0) :=
  ⟨exDir_length, by simp [exTouch], exTouch_rayIntersect, lt_irrefl 0⟩

/-- C6, amended: for a unit direction and a sphere of positive radius, the distance
written by a `true` result of `rayIntersect` is non-negative, and it is strictly
positive unless the origin lies on the sphere surface. -/
theorem rayIntersect_distance_nonneg (s : Sphere ℝ) (orig direction : Vector ℝ) (t : ℝ)
    (hdir : direction.length = 1) (hr : 0 < s.radius)
    (h : s.rayIntersect orig direction = some t) :
    0 ≤ t ∧ ((s.center.sub orig).length ≠ s.radius → 0 < t) := by
  obtain ⟨h0, hon, _⟩ := rayIntersect_sound s orig direction hdir hr t h
  refine ⟨h0, fun hne => ?_⟩
  rcases h0.lt_or_eq with hlt | heq
  · exact hlt
  · exfalso
    apply hne
    rw [← heq] at hon
    rw [length_eq_iff _ _ hr.le] at hon ⊢
    rw [← hon]
    simp only [dot, Vector.sub, Vector.add, Vector.mulScalar]; ring

/-- Instance of `rayIntersect_distance_nonneg` at the sphere `exNear`, hit at `t = 4`. -/
theorem rayIntersect_distance_nonneg_witness :
    (exDir : Vector ℝ).length = 1 ∧ (0 : ℝ) < (exNear : Sphere ℝ).radius ∧
    (exNear : Sphere ℝ).rayIntersect exOrigin exDir = some 4 ∧
    ((0 : ℝ) ≤ 4 ∧
      (((exNear : Sphere ℝ).center.sub exOrigin).length ≠ (exNear : Sphere ℝ).radius →
        (0 : ℝ) < 4)) :=
  ⟨exDir_length, by simp [exNear], exNear_rayIntersect,
    rayIntersect_distance_nonneg exNear exOrigin exDir 4 exDir_length (by simp [exNear])
      exNear_rayIntersect⟩

end RayIntersect

/-! ## castRay -/

section CastRay

theorem lt_numeric_limits_max (t : ℝ) (h : t ≤ 10) : t < numeric_limits_max := by
  have : (10 : ℝ) < numeric_limits_max := by unfold numeric_limits_max; norm_num
  linarith

/-- The first sphere of the list that passes the test of the `if` decides the result. -/
theorem castRay_cons_hit (orig dir : Vector ℝ) (s : Sphere ℝ) (rest : List (Sphere ℝ))
    (lights : List (Light ℝ)) (t : ℝ) (h : s.rayIntersect orig dir = some t)
    (hlt : t < numeric_limits_max) :
    castRay orig dir (s :: rest) lights = castRay_shade orig dir Vector.default s t lights := by
  simp only [castRay, castRay_loop, h, if_pos hlt]

/-- A sphere that fails the test of the `if` is skipped. -/
theorem castRay_cons_miss (orig dir : Vector ℝ) (s : Sphere ℝ) (rest : List (Sphere ℝ))
    (lights : List (Light ℝ)) (h : castRay_isHit orig dir s = false) :
    castRay orig dir (s :: rest) lights = castRay orig dir rest lights := by
  unfold castRay_isHit at h
  cases hres : s.rayIntersect orig dir with
  | none => simp only [castRay, castRay_loop, hres]
  | some t =>
    rw [hres] at h
    have hn : ¬ t < numeric_limits_max := by simpa using h
    simp only [castRay, castRay_loop, hres, if_neg hn]

/-- The value of `normalized()` on a vector whose length is known. -/
theorem normalized_of_dot (v : Vector ℝ) (r : ℝ) (hr : 0 ≤ r) (h : dot v v = r * r) :
    v.normalized = ⟨v.x * (1 / r), v.y * (1 / r), v.z * (1 / r)⟩ := by
  have hl : v.length = r := (length_eq_iff v r hr).mpr h
  simp only [Vector.normalized, Vector.mulFloat, hl]

/-- The surface normal `N` computed by `castRay` for a sphere of radius 1 on the negative
z axis, hit from the origin along `exDir`. -/
theorem exNormal (c : ℝ) :
    (((exOrigin : Vector ℝ).add (exDir.mulScalar (c - 1))).sub ⟨0, 0, -c⟩).normalized
      = ⟨0, 0, 1⟩ := by
  rw [normalized_of_dot _ 1 zero_le_one
    (by simp only [dot, Vector.sub, Vector.add, Vector.mulScalar, exOrigin, exDir]; ring)]
  simp only [Vector.sub, Vector.add, Vector.mulScalar, exOrigin, exDir]
  norm_num

/-- The light direction `castRay` computes for `exLight`. -/
theorem exLight_direction :
    ((exLight : Light ℝ).position.sub Vector.default).normalized = ⟨0, 0, 1⟩ := by
  rw [normalized_of_dot _ 1 zero_le_one
    (by simp only [dot, Vector.sub, exLight, Vector.default]; norm_num)]
  simp only [Vector.sub, exLight, Vector.default]
  norm_num

/-- The colour `castRay` computes under `exLight` for a sphere of radius 1 on the
negative z axis, hit from the origin along `exDir`. -/
theorem exShade (c : ℝ) (m : Material ℝ) :
    castRay_shade exOrigin exDir Vector.default (Sphere.mk ⟨0, 0, -c⟩ 1 m) (c - 1) [exLight]
      = ⟨m.diffuseColor.x * m.albedo 0 + m.albedo 1,
         m.diffuseColor.y * m.albedo 0 + m.albedo 1,
         m.diffuseColor.z * m.albedo 0 + m.albedo 1⟩ := by
  simp only [castRay_shade, List.foldl, castRay_lightStep]
  rw [exNormal c, exLight_direction]
  simp [dot, reflect, Vector.neg, Vector.sub, Vector.add, Vector.scalarMul,
    Vector.mulScalar, exLight, pow_real]
  norm_num

/-- C1: `castRay` does not return the colour of the nearest intersected sphere.  Both
`exFar` (at distance 9) and `exNear` (at distance 4) are intersected by the ray; with
`exFar` first in the list `castRay` returns the colour of `exFar`, red, and with the two
spheres exchanged it returns the colour of `exNear`, green. -/
theorem castRay_returns_first_not_nearest :
    (exFar : Sphere ℝ).rayIntersect exOrigin exDir = some 9 ∧
    (exNear : Sphere ℝ).rayIntersect exOrigin exDir = some 4 ∧
    castRay (exOrigin : Vector ℝ) exDir [exFar, exNear] [exLight] = ⟨1, 0, 0⟩ ∧
    castRay (exOrigin : Vector ℝ) exDir [exNear, exFar] [exLight] = ⟨0, 1, 0⟩ ∧
    castRay_shade (exOrigin : Vector ℝ) exDir Vector.default exNear 4 [exLight] = ⟨0, 1, 0⟩ := by
  have hfar := exShade 10 exRed
  have hnear := exShade 5 exGreen
  norm_num [exRed, exGreen] at hfar hnear
  refine ⟨exFar_rayIntersect, exNear_rayIntersect, ?_, ?_, ?_⟩
  · rw [castRay_cons_hit _ _ _ _ _ 9 exFar_rayIntersect (lt_numeric_limits_max 9 (by norm_num))]
    exact hfar
  · rw [castRay_cons_hit _ _ _ _ _ 4 exNear_rayIntersect (lt_numeric_limits_max 4 (by norm_num))]
    exact hnear
  · exact hnear

/-- With no light the body of the `if` returns black, whatever the material. -/
theorem castRay_shade_nil (orig dir point : Vector ℝ) (s : Sphere ℝ) (t : ℝ) :
    castRay_shade orig dir point s t [] = ⟨0, 0, 0⟩ := by
  simp [castRay_shade, Vector.mulScalar, Vector.add]

/-- C8: with the empty light list the accumulated diffuse and specular intensities are
both 0, and `castRay` returns `(0, 0, 0)` when some sphere of the list is a hit,
whatever its material, and the background colour `(0.2, 0.7, 0.8)` when none is. -/
theorem castRay_no_lights (orig dir : Vector ℝ) (spheres : List (Sphere ℝ)) :
    (∀ (point N : Vector ℝ) (e : ℝ),
      List.foldl (castRay_lightStep point N e) (0, 0) ([] : List (Light ℝ)) = (0, 0)) ∧
    castRay orig dir spheres []
      = if spheres.any (castRay_isHit orig dir) = true then ⟨0, 0, 0⟩ else ⟨0.2, 0.7, 0.8⟩ := by
  refine ⟨fun _ _ _ => rfl, ?_⟩
  induction spheres with
  | nil => simp [castRay, castRay_loop]
  | cons s rest ih =>
    by_cases hs : castRay_isHit orig dir s = true
    · have hany : (s :: rest).any (castRay_isHit orig dir) = true := by
        simp [List.any_cons, hs]
      rw [if_pos hany]
      unfold castRay_isHit at hs
      cases hres : s.rayIntersect orig dir with
      | none => rw [hres] at hs; exact absurd hs (by simp)
      | some t =>
        rw [hres] at hs
        have hlt : t < numeric_limits_max := by simpa using hs
        rw [castRay_cons_hit orig dir s rest [] t hres hlt, castRay_shade_nil]
    · have hs : castRay_isHit orig dir s = false := by simpa using hs
      rw [castRay_cons_miss orig dir s rest [] hs, ih]
      simp [List.any_cons, hs]

end CastRay

/-! ## Vector helpers -/

section VectorMath

/-- C9: for a vector `v` of non-zero length, `v.normalized()` and `unit_vector(v)` both
have length 1 (over the reals) and are the same vector. -/
theorem normalized_length_one (v : Vector ℝ) (h : v.length ≠ 0) :
    v.normalized.length = 1 ∧ (unit_vector v).length = 1 ∧ v.normalized = unit_vector v := by
  have he : v.normalized = unit_vector v := by
    simp only [Vector.normalized, Vector.mulFloat, unit_vector, Vector.divScalar,
      Vector.scalarMul, mul_comm]
  have hu : (unit_vector v).length = 1 := by
    rw [length_eq_iff _ _ zero_le_one, dot_unit_vector_self v h]; norm_num
  exact ⟨by rw [he]; exact hu, hu, he⟩

/-- Instance of `normalized_length_one` at the vector `(0, 3, -4)`. -/
theorem normalized_length_one_witness :
    (Vector.mk (0 : ℝ) 3 (-4)).length ≠ 0 ∧
    (Vector.mk (0 : ℝ) 3 (-4)).normalized.length = 1 ∧
    (unit_vector (Vector.mk (0 : ℝ) 3 (-4))).length = 1 ∧
    (Vector.mk (0 : ℝ) 3 (-4)).normalized = unit_vector (Vector.mk (0 : ℝ) 3 (-4)) := by
  have hl : (Vector.mk (0 : ℝ) 3 (-4)).length = 5 := by
    rw [length_eq_iff _ _ (by norm_num)]; simp only [dot]; norm_num
  have hne : (Vector.mk (0 : ℝ) 3 (-4)).length ≠ 0 := by rw [hl]; norm_num
  exact ⟨hne, normalized_length_one _ hne⟩

/-- C10: for every vector `v` and every unit-length vector `n`,
`dot(reflect(v, n), n) = -dot(v, n)`, where `reflect(v, n) = v - 2 * dot(v, n) * n`. -/
theorem dot_reflect (v n : Vector ℝ) (hn : n.length = 1) :
    reflect v n = v.sub (Vector.scalarMul (2 * dot v n) n) ∧
    dot (reflect v n) n = - dot v n := by
  have hd := dot_self_of_length_one n hn
  refine ⟨rfl, ?_⟩
  simp only [reflect, dot, Vector.sub, Vector.scalarMul] at *
  linear_combination (-2 * (v.x * n.x + v.y * n.y + v.z * n.z)) * hd

/-- Instance of `dot_reflect` at `v = (1, 2, 3)` and the unit vector `exDir`. -/
theorem dot_reflect_witness :
    (exDir : Vector ℝ).length = 1 ∧
    dot (reflect (Vector.mk (1 : ℝ) 2 3) exDir) exDir = - dot (Vector.mk (1 : ℝ) 2 3) exDir :=
  ⟨exDir_length, (dot_reflect ⟨1, 2, 3⟩ exDir exDir_length).2⟩

end VectorMath

/-! ## The structure of `castRay` and of `rayIntersect` -/

section Structure

theorem exNear_isHit : castRay_isHit (exOrigin : Vector ℝ) exDir exNear = true := by
  unfold castRay_isHit
  rw [exNear_rayIntersect]
  simpa using lt_numeric_limits_max 4 (by norm_num)

/-- Spheres that fail the test of the `if` in front of the list are skipped. -/
theorem castRay_append_miss (orig dir : Vector ℝ) (lights : List (Light ℝ))
    (pre spheres : List (Sphere ℝ)) (h : ∀ p ∈ pre, castRay_isHit orig dir p = false) :
    castRay orig dir (pre ++ spheres) lights = castRay orig dir spheres lights := by
  induction pre with
  | nil => rfl
  | cons p pre ih =>
    rw [List.cons_append, castRay_cons_miss orig dir p _ lights (h p (List.mem_cons_self _ _))]
    exact ih (fun q hq => h q (List.mem_cons_of_mem _ hq))

/-- A sphere that passes the test of the `if` decides the result. -/
theorem castRay_cons_isHit (orig dir : Vector ℝ) (s : Sphere ℝ) (rest : List (Sphere ℝ))
    (lights : List (Light ℝ)) (h : castRay_isHit orig dir s = true) :
    ∃ t, s.rayIntersect orig dir = some t ∧ t < numeric_limits_max ∧
      castRay orig dir (s :: rest) lights
        = castRay_shade orig dir Vector.default s t lights := by
  unfold castRay_isHit at h
  cases hres : s.rayIntersect orig dir with
  | none => rw [hres] at h; exact absurd h (by simp)
  | some t =>
    rw [hres] at h
    have hlt : t < numeric_limits_max := by simpa using h
    exact ⟨t, rfl, hlt, castRay_cons_hit orig dir s rest lights t hres hlt⟩

/-- C16: `castRay` returns from inside its sphere loop at the first intersected sphere.
It is the background colour on the empty list; on `s :: rest` it is the shaded colour of
`s` if `rayIntersect` succeeds on `s` with `t` below `numeric_limits<double>::max()`, and
otherwise its value on `rest`; so it is the first-hit search `castRay_firstHit`, and the
spheres after the first intersected one do not influence the result. -/
theorem castRay_first_intersected (orig dir : Vector ℝ) (lights : List (Light ℝ)) :
    castRay orig dir [] lights = ⟨0.2, 0.7, 0.8⟩ ∧
    (∀ (s : Sphere ℝ) (rest : List (Sphere ℝ)),
      castRay orig dir (s :: rest) lights =
        match s.rayIntersect orig dir with
        | some t =>
          if t < numeric_limits_max then castRay_shade orig dir Vector.default s t lights
          else castRay orig dir rest lights
        | none => castRay orig dir rest lights) ∧
    (∀ spheres : List (Sphere ℝ),
      castRay orig dir spheres lights = castRay_firstHit orig dir lights spheres) ∧
    (∀ (pre : List (Sphere ℝ)) (s : Sphere ℝ) (rest rest' : List (Sphere ℝ)),
      (∀ p ∈ pre, castRay_isHit orig dir p = false) → castRay_isHit orig dir s = true →
      castRay orig dir (pre ++ s :: rest) lights
        = castRay orig dir (pre ++ s :: rest') lights) := by
  refine ⟨rfl, ?_, ?_, ?_⟩
  · intro s rest
    cases hres : s.rayIntersect orig dir with
    | none => simp only [castRay, castRay_loop, hres]
    | some t => simp only [castRay, castRay_loop, hres]
  · intro spheres
    induction spheres with
    | nil => rfl
    | cons s rest ih =>
      show castRay orig dir (s :: rest) lights = castRay_firstHit orig dir lights (s :: rest)
      cases hres : s.rayIntersect orig dir with
      | none =>
        simp only [castRay, castRay_loop, castRay_firstHit, hres]
        exact ih
      | some t =>
        by_cases hlt : t < numeric_limits_max
        · simp only [castRay, castRay_loop, castRay_firstHit, hres, if_pos hlt]
        · simp only [castRay, castRay_loop, castRay_firstHit, hres, if_neg hlt]
          exact ih
  · intro pre s rest rest' hpre hs
    rw [castRay_append_miss orig dir lights pre _ hpre,
      castRay_append_miss orig dir lights pre _ hpre]
    obtain ⟨t, ht, _, h1⟩ := castRay_cons_isHit orig dir s rest lights hs
    obtain ⟨t', ht', _, h2⟩ := castRay_cons_isHit orig dir s rest' lights hs
    have htt : t = t' := by
      rw [ht] at ht'
      exact Option.some.inj ht'
    rw [h1, h2, htt]

/-- Instance of `castRay_first_intersected`: after the hit `exNear`, the sphere `exFar`
does not influence the result. -/
theorem castRay_first_intersected_witness :
    (∀ p ∈ ([] : List (Sphere ℝ)), castRay_isHit (exOrigin : Vector ℝ) exDir p = false) ∧
    castRay_isHit (exOrigin : Vector ℝ) exDir exNear = true ∧
    castRay (exOrigin : Vector ℝ) exDir ([] ++ exNear :: [exFar]) [exLight]
      = castRay (exOrigin : Vector ℝ) exDir ([] ++ exNear :: []) [exLight] :=
  ⟨fun _ hp => absurd hp (List.not_mem_nil _), exNear_isHit,
    (castRay_first_intersected exOrigin exDir [exLight]).2.2.2 [] exNear [exFar] []
      (fun _ hp => absurd hp (List.not_mem_nil _)) exNear_isHit⟩

/-- The body of the `if` of `castRay` uses the ray only through the normal `N`. -/
theorem castRay_shade_eq_shadeOfNormal (orig dir point : Vector ℝ) (s : Sphere ℝ) (t : ℝ)
    (lights : List (Light ℝ)) :
    castRay_shade orig dir point s t lights
      = castRay_shadeOfNormal ((orig.add (dir.mulScalar t)).sub s.center).normalized point
          s.material lights := rfl

/-- The base of the specular term, for arbitrary vectors. -/
theorem dot_neg_reflect (l N : Vector ℝ) :
    dot l (reflect l N).neg = 2 * dot l N ^ 2 - dot l l := by
  simp only [reflect, dot, Vector.sub, Vector.scalarMul, Vector.neg]
  ring

/-- C19: in `rayIntersect`, `thc ≥ 0`, so the test `t0 > t1` of the swap fails; past the
two early rejections `t1 = tca + thc ≥ 0`, so the inner `if (t0 < 0) return false` is
not taken; the function returns `true` exactly when `tca ≥ 0` and
`dot(L, L) - tca^2 ≤ radius^2`; and its result depends on the radius only through
`radius * radius`. -/
theorem rayIntersect_dead_branches (s : Sphere ℝ) (orig direction : Vector ℝ) :
    (0 ≤ dot (s.center.sub orig) direction →
      d2Of s orig direction ≤ s.radius * s.radius →
      0 ≤ thcOf s orig direction ∧
      ¬ (tcaOf s orig direction - thcOf s orig direction
          > tcaOf s orig direction + thcOf s orig direction) ∧
      0 ≤ tcaOf s orig direction + thcOf s orig direction ∧
      ¬ (tcaOf s orig direction + thcOf s orig direction < 0)) ∧
    ((s.rayIntersect orig direction).isSome = true ↔
      0 ≤ dot (s.center.sub orig) direction ∧
      dot (s.center.sub orig) (s.center.sub orig)
        - dot (s.center.sub orig) direction * dot (s.center.sub orig) direction
        ≤ s.radius * s.radius) ∧
    (∀ s' : Sphere ℝ, s'.center = s.center → s'.radius * s'.radius = s.radius * s.radius →
      s'.rayIntersect orig direction = s.rayIntersect orig direction) := by
  have hthc := thcOf_nonneg s orig direction
  refine ⟨?_, ⟨?_, ?_⟩, ?_⟩
  · intro h1 _
    have h1 : 0 ≤ tcaOf s orig direction := h1
    exact ⟨hthc, by intro h; linarith, by linarith, by intro h; linarith⟩
  · intro h
    obtain ⟨t, ht⟩ := Option.isSome_iff_exists.mp h
    obtain ⟨h1, h2, _⟩ := rayIntersect_eq_some s orig direction t ht
    exact ⟨h1, h2⟩
  · rintro ⟨h1, h2⟩
    rw [rayIntersect_of_pass s orig direction h1 h2]; rfl
  · intro s' hc hr
    simp only [Sphere.rayIntersect, hc, hr]

/-- Instance of `rayIntersect_dead_branches` at the sphere `exNear` (`tca = 5`, `d2 = 0`),
and at the sphere of radius `-1` with the same centre. -/
theorem rayIntersect_dead_branches_witness :
    0 ≤ dot ((exNear : Sphere ℝ).center.sub exOrigin) exDir ∧
    d2Of (exNear : Sphere ℝ) exOrigin exDir ≤ (exNear : Sphere ℝ).radius * (exNear : Sphere ℝ).radius ∧
    0 ≤ tcaOf (exNear : Sphere ℝ) exOrigin exDir + thcOf (exNear : Sphere ℝ) exOrigin exDir ∧
    (Sphere.mk ⟨0, 0, -5⟩ (-1) exGreen : Sphere ℝ).rayIntersect exOrigin exDir
      = (exNear : Sphere ℝ).rayIntersect exOrigin exDir := by
  have h := rayIntersect_dead_branches (exNear : Sphere ℝ) exOrigin exDir
  have h1 : 0 ≤ dot ((exNear : Sphere ℝ).center.sub exOrigin) exDir := by
    simp only [dot, Vector.sub, exNear, exOrigin, exDir]; norm_num
  have h2 : d2Of (exNear : Sphere ℝ) exOrigin exDir
      ≤ (exNear : Sphere ℝ).radius * (exNear : Sphere ℝ).radius := by
    simp only [d2Of, tcaOf, dot, Vector.sub, exNear, exOrigin, exDir]; norm_num
  exact ⟨h1, h2, (h.1 h1 h2).2.2.1,
    h.2.2 (Sphere.mk ⟨0, 0, -5⟩ (-1) exGreen) rfl (by simp [exNear])⟩

end Structure

/-! ## Construction of spheres -/

section Construction

/-- C15, as stated, fails: the constructor `Sphere(center, radius, mat)` yields a sphere
for the radius `-1` and for the radius `0`, and stores that radius. -/
theorem sphere_new_nonpositive_radius :
    (Sphere.new (⟨0, 0, 0⟩ : Vector ℝ) (-1) Material.default).radius = -1 ∧
    ¬ 0 < (Sphere.new (⟨0, 0, 0⟩ : Vector ℝ) (-1) Material.default).radius ∧
    (Sphere.new (⟨0, 0, 0⟩ : Vector ℝ) 0 Material.default).radius = 0 ∧
    ¬ 0 < (Sphere.new (⟨0, 0, 0⟩ : Vector ℝ) 0 Material.default).radius := by
  simp [Sphere.new]

/-- C15, amended: the constructors of `Sphere` accept every radius and store it unchanged
(nothing is rejected); the default-constructed sphere has radius 1, and the four
spheres of the scene of `main` have the radii 2, 2, 3, 4, all positive. -/
theorem sphere_new_radius (center : Vector ℝ) (x y z radius : ℝ) (mat : Material ℝ) :
    (Sphere.new center radius mat).radius = radius ∧
    (Sphere.newXYZ x y z radius mat).radius = radius ∧
    (Sphere.default : Sphere ℝ).radius = 1 ∧
    (main_spheres : List (Sphere ℝ)).map Sphere.radius = [2, 2, 3, 4] ∧
    (main_spheres : List (Sphere ℝ)).all (fun s => decide (0 < s.radius)) = true := by
  refine ⟨rfl, rfl, rfl, rfl, ?_⟩
  simp [main_spheres, Sphere.new]

end Construction

/-! ## The render loop -/

section Render

theorem main_row_length (j : ℕ) : (main_row (F := ℝ) j).length = imageWidth := by
  simp [main_row]

theorem main_rows_length (n : ℕ) : (main_rows (F := ℝ) n).length = n * imageWidth := by
  induction n with
  | zero => simp [main_rows]
  | succ n ih =>
    simp only [main_rows, List.length_append, main_row_length, ih]
    ring

theorem main_row_getElem (j k : ℕ) (hk : k < imageWidth) :
    (main_row (F := ℝ) j)[k]? = some (main_pixel (F := ℝ) k j) := by
  simp [main_row, List.getElem?_range hk]

/-- The `k`-th triple printed by the outer loop entered with `j = n - 1`. -/
theorem main_rows_getElem (n k : ℕ) (hk : k < n * imageWidth) :
    (main_rows (F := ℝ) n)[k]?
      = some (main_pixel (F := ℝ) (k % imageWidth) (n - 1 - k / imageWidth)) := by
  induction n generalizing k with
  | zero => simp at hk
  | succ n ih =>
    simp only [main_rows]
    by_cases hlt : k < imageWidth
    · rw [List.getElem?_append_left (by rw [main_row_length]; exact hlt),
        main_row_getElem n k hlt]
      have h1 : k % imageWidth = k := Nat.mod_eq_of_lt hlt
      have h2 : k / imageWidth = 0 := Nat.div_eq_of_lt hlt
      rw [h1, h2]
      simp
    · have hge : imageWidth ≤ k := not_lt.mp hlt
      rw [List.getElem?_append_right (by rw [main_row_length]; exact hge), main_row_length]
      have hk' : k - imageWidth < n * imageWidth := by
        have : (n + 1) * imageWidth = n * imageWidth + imageWidth := by ring
        omega
      rw [ih (k - imageWidth) hk']
      have hW : imageWidth = 1024 := rfl
      rw [hW] at hge hk hk' ⊢
      have h1 : (k - 1024) % 1024 = k % 1024 := by omega
      have h2 : (k - 1024) / 1024 = k / 1024 - 1 := by omega
      have h3 : n - 1 - (k / 1024 - 1) = n + 1 - 1 - k / 1024 := by omega
      rw [h1, h2, h3]

/-- C13: the render loop prints exactly `imageWidth * imageHeight = 1024 * 768` colour
triples, and the `k`-th one (from 0) is the colour of the ray through the pixel of column
`i = k mod 1024` and row index `j = 767 - k div 1024`, whose direction is
`unit_vector((2 (i + 0.5) / 1024 - 1) * 1024 / 768, 2 (j + 0.5) / 768 - 1, -1)`: rows from
the highest `j` to the lowest, each row from left to right. -/
theorem main_output_order :
    (main_output (F := ℝ)).length = imageWidth * imageHeight ∧
    imageWidth * imageHeight = 1024 * 768 ∧
    ∀ k : ℕ, k < 1024 * 768 →
      (main_output (F := ℝ))[k]? =
        some (printColor (castRay (⟨0, 0, 0⟩ : Vector ℝ)
          (unit_vector
            ⟨(2 * (((k % 1024 : ℕ) : ℝ) + 0.5) / 1024 - 1) * 1024 / 768,
             2 * (((767 - k / 1024 : ℕ) : ℝ) + 0.5) / 768 - 1,
             -1⟩)
          main_spheres main_lights)) := by
  refine ⟨?_, rfl, ?_⟩
  · rw [main_output, main_rows_length, Nat.mul_comm]
  · intro k hk
    rw [main_output, main_rows_getElem imageHeight k (by simpa [imageHeight, imageWidth] using hk)]
    simp [main_pixel, main_color, main_dir, main_pixelVector, imageWidth, imageHeight]

/-- Instance of `main_output_order` at `k = 1024`, the first pixel of the second row
printed: column 0 of the row of index 766. -/
theorem main_output_order_witness :
    (1024 : ℕ) < 1024 * 768 ∧
    (main_output (F := ℝ))[1024]? =
      some (printColor (castRay (⟨0, 0, 0⟩ : Vector ℝ)
        (unit_vector
          ⟨(2 * (((1024 % 1024 : ℕ) : ℝ) + 0.5) / 1024 - 1) * 1024 / 768,
           2 * (((767 - 1024 / 1024 : ℕ) : ℝ) + 0.5) / 768 - 1,
           -1⟩)
        main_spheres main_lights)) :=
  ⟨by norm_num, main_output_order.2.2 1024 (by norm_num)⟩

/-- The vector `Vector(x, y, -1)` of a pixel has `dot` at least 1. -/
theorem main_pixelVector_dot (i j : ℕ) :
    1 ≤ dot (main_pixelVector (F := ℝ) i j) (main_pixelVector (F := ℝ) i j) := by
  simp only [dot, main_pixelVector]
  nlinarith [mul_self_nonneg ((2 * ((i : ℝ) + 0.5) / (imageWidth : ℝ) - 1) * (imageWidth : ℝ)
      / (imageHeight : ℝ)),
    mul_self_nonneg (2 * ((j : ℝ) + 0.5) / (imageHeight : ℝ) - 1)]

theorem length_ne_zero_of_dot_pos (v : Vector ℝ) (h : 0 < dot v v) : v.length ≠ 0 := by
  intro h0
  have := length_mul_self v
  rw [h0] at this
  linarith

theorem main_pixelVector_length (i j : ℕ) : (main_pixelVector (F := ℝ) i j).length ≠ 0 :=
  length_ne_zero_of_dot_pos _ (lt_of_lt_of_le zero_lt_one (main_pixelVector_dot i j))

theorem unit_vector_length (v : Vector ℝ) (h : v.length ≠ 0) : (unit_vector v).length = 1 := by
  rw [length_eq_iff _ _ zero_le_one, dot_unit_vector_self v h]; norm_num

theorem main_dir_length (i j : ℕ) : (main_dir (F := ℝ) i j).length = 1 :=
  unit_vector_length _ (main_pixelVector_length i j)

/-- C14: while rendering, no vector of length zero is normalised.  For every pixel the
vector `(x, y, -1)` passed to `unit_vector` has non-zero length and the ray direction has
length 1; for a sphere of positive radius and a unit direction, at every hit reported by
`rayIntersect` the vector `hit - center` passed to `normalized()` has length exactly
`radius`, hence non-zero; and for the scene of `main` the vector `light.position - point`
is `(-21, 19, 19)`, of non-zero length. -/
theorem normalize_arguments_nonzero :
    (∀ i j : ℕ, (main_pixelVector (F := ℝ) i j).length ≠ 0 ∧
      (main_dir (F := ℝ) i j).length = 1) ∧
    (∀ (s : Sphere ℝ) (orig dir : Vector ℝ) (t : ℝ), 0 < s.radius → dir.length = 1 →
      s.rayIntersect orig dir = some t →
      ((orig.add (dir.mulScalar t)).sub s.center).length = s.radius ∧
      ((orig.add (dir.mulScalar t)).sub s.center).length ≠ 0) ∧
    (main_lights : List (Light ℝ)).map (fun l => l.position.sub Vector.default)
      = [⟨-21, 19, 19⟩] ∧
    (Vector.mk (-21 : ℝ) 19 19).length ≠ 0 := by
  refine ⟨fun i j => ⟨main_pixelVector_length i j, main_dir_length i j⟩, ?_, ?_, ?_⟩
  · intro s orig dir t hr hdir h
    obtain ⟨_, hon, _⟩ := rayIntersect_sound s orig dir hdir hr t h
    exact ⟨hon, by rw [hon]; exact hr.ne'⟩
  · simp only [main_lights, Light.new, List.map, Vector.sub, Vector.default]
    norm_num
  · apply length_ne_zero_of_dot_pos
    simp only [dot]; norm_num

/-- Instance of `normalize_arguments_nonzero` at the sphere `exNear`, hit at distance 4. -/
theorem normalize_arguments_nonzero_witness :
    (0 : ℝ) < (exNear : Sphere ℝ).radius ∧ (exDir : Vector ℝ).length = 1 ∧
    (exNear : Sphere ℝ).rayIntersect exOrigin exDir = some 4 ∧
    (((exOrigin : Vector ℝ).add (exDir.mulScalar 4)).sub (exNear : Sphere ℝ).center).length
      = (exNear : Sphere ℝ).radius ∧
    (((exOrigin : Vector ℝ).add (exDir.mulScalar 4)).sub (exNear : Sphere ℝ).center).length
      ≠ 0 :=
  ⟨by simp [exNear], exDir_length, exNear_rayIntersect,
    normalize_arguments_nonzero.2.1 exNear exOrigin exDir 4 (by simp [exNear]) exDir_length
      exNear_rayIntersect⟩

end Render

/-! ## Sign of the colour channels -/

section Channels

/-- The light loop keeps both accumulators non-negative when the intensities are. -/
theorem lightStep_foldl_nonneg (point N : Vector ℝ) (e : ℝ) (lights : List (Light ℝ))
    (hI : ∀ l ∈ lights, 0 ≤ l.intensity) :
    ∀ acc : ℝ × ℝ, 0 ≤ acc.1 → 0 ≤ acc.2 →
      0 ≤ (lights.foldl (castRay_lightStep point N e) acc).1 ∧
      0 ≤ (lights.foldl (castRay_lightStep point N e) acc).2 := by
  induction lights with
  | nil => intro acc h1 h2; exact ⟨h1, h2⟩
  | cons l rest ih =>
    intro acc h1 h2
    have hl : 0 ≤ l.intensity := hI l (List.mem_cons_self _ _)
    rw [List.foldl_cons]
    apply ih (fun q hq => hI q (List.mem_cons_of_mem _ hq))
    · simp only [castRay_lightStep]
      exact add_nonneg h1 (mul_nonneg hl (le_max_left _ _))
    · simp only [castRay_lightStep, pow_real]
      exact add_nonneg h2 (mul_nonneg hl (Real.rpow_nonneg (le_max_left _ _) _))

/-- The colour computed for a hit has non-negative channels when the light intensities,
the two albedo weights used and the diffuse colour are non-negative. -/
theorem castRay_shade_nonneg (orig dir point : Vector ℝ) (s : Sphere ℝ) (t : ℝ)
    (lights : List (Light ℝ)) (hI : ∀ l ∈ lights, 0 ≤ l.intensity)
    (ha0 : 0 ≤ s.material.albedo 0) (ha1 : 0 ≤ s.material.albedo 1)
    (hx : 0 ≤ s.material.diffuseColor.x) (hy : 0 ≤ s.material.diffuseColor.y)
    (hz : 0 ≤ s.material.diffuseColor.z) :
    0 ≤ (castRay_shade orig dir point s t lights).x ∧
    0 ≤ (castRay_shade orig dir point s t lights).y ∧
    0 ≤ (castRay_shade orig dir point s t lights).z := by
  obtain ⟨h1, h2⟩ := lightStep_foldl_nonneg point
    ((orig.add (dir.mulScalar t)).sub s.center).normalized s.material.specularExponent
    lights hI (0, 0) le_rfl le_rfl
  simp only [castRay_shade, Vector.add, Vector.mulScalar]
  refine ⟨?_, ?_, ?_⟩
  · exact add_nonneg (mul_nonneg (mul_nonneg hx h1) ha0)
      (mul_nonneg (mul_nonneg zero_le_one h2) ha1)
  · exact add_nonneg (mul_nonneg (mul_nonneg hy h1) ha0)
      (mul_nonneg (mul_nonneg zero_le_one h2) ha1)
  · exact add_nonneg (mul_nonneg (mul_nonneg hz h1) ha0)
      (mul_nonneg (mul_nonneg zero_le_one h2) ha1)

/-- Inside the range of `int`, the conversion of a non-negative value is its floor. -/
theorem static_cast_int_of_nonneg (x : ℝ) (h0 : 0 ≤ x) (h1 : x < 2147483648) :
    static_cast_int x = ⌊x⌋ := by
  unfold static_cast_int
  rw [if_pos ⟨by linarith, h1⟩, if_pos h0]

/-- At and above `2^31` the conversion is out of the range of `int`. -/
theorem static_cast_int_of_large (x : ℝ) (h : 2147483648 ≤ x) :
    static_cast_int x = -2147483648 := by
  unfold static_cast_int
  rw [if_neg (fun hc => absurd hc.2 (not_lt.mpr h))]

theorem static_cast_int_nonneg (x : ℝ) (h : 0 ≤ x) (h1 : x < 2147483648) :
    0 ≤ static_cast_int x := by
  rw [static_cast_int_of_nonneg x h h1]
  exact Int.floor_nonneg.mpr h

/-- A material with diffuse red component `b`, diffuse weight 1 and no specular weight. -/
theorem exShade_red (b : ℝ) :
    (castRay (exOrigin : Vector ℝ) exDir
      [Sphere.mk ⟨0, 0, -5⟩ 1 ⟨1, ![1, 0, 0, 0], ⟨b, 0, 0⟩, 1⟩] [exLight]).x = b := by
  rw [castRay_cons_hit _ _ _ _ _ (5 - 1)
    (rayIntersect_axis 5 1 _ (by norm_num) (by norm_num))
    (lt_numeric_limits_max _ (by norm_num)), exShade]
  simp

theorem exLight_intensity : ∀ l ∈ ([exLight] : List (Light ℝ)), 0 ≤ l.intensity := by
  intro l hl
  rw [List.mem_singleton.mp hl]
  simp [exLight]

theorem exHuge_rayIntersect : (exHuge : Sphere ℝ).rayIntersect exOrigin exDir = some 4 := by
  have h := rayIntersect_axis 5 1 (exHuge : Sphere ℝ).material (by norm_num) (by norm_num)
  norm_num at h
  exact h

theorem exHuge_red :
    (castRay (exOrigin : Vector ℝ) exDir [exHuge] [exLight]).x = 100000000 :=
  exShade_red 100000000

/-- The colour of `exNear` under `exLight`, seen from the origin along `exDir`. -/
theorem exNear_color :
    castRay (exOrigin : Vector ℝ) exDir ([] ++ exNear :: [exFar]) [exLight] = ⟨0, 1, 0⟩ := by
  have hnear := exShade 5 exGreen
  norm_num [exGreen] at hnear
  rw [List.nil_append,
    castRay_cons_hit _ _ _ _ _ 4 exNear_rayIntersect (lt_numeric_limits_max 4 (by norm_num))]
  exact hnear

/-- C18, as stated, fails: the sphere `exHuge` is hit at distance 4, the light intensity,
both albedo weights and the diffuse colour are non-negative, and the red channel
returned by `castRay` is `10^8 ≥ 0`; but `255 * 10^8` is outside the range of `int`, and
the integer `printColor` emits for it is `-2147483648`, which is negative. -/
theorem printColor_negative_integer :
    (exHuge : Sphere ℝ).rayIntersect exOrigin exDir = some 4 ∧
    (4 : ℝ) < numeric_limits_max ∧
    (∀ l ∈ ([exLight] : List (Light ℝ)), 0 ≤ l.intensity) ∧
    0 ≤ (exHuge : Sphere ℝ).material.albedo 0 ∧
    0 ≤ (exHuge : Sphere ℝ).material.albedo 1 ∧
    0 ≤ (exHuge : Sphere ℝ).material.diffuseColor.x ∧
    0 ≤ (exHuge : Sphere ℝ).material.diffuseColor.y ∧
    0 ≤ (exHuge : Sphere ℝ).material.diffuseColor.z ∧
    (castRay (exOrigin : Vector ℝ) exDir [exHuge] [exLight]).x = 100000000 ∧
    (printColor (castRay (exOrigin : Vector ℝ) exDir [exHuge] [exLight])).1 = -2147483648 ∧
    ¬ 0 ≤ (printColor (castRay (exOrigin : Vector ℝ) exDir [exHuge] [exLight])).1 := by
  have hp : (printColor (castRay (exOrigin : Vector ℝ) exDir [exHuge] [exLight])).1
      = -2147483648 := by
    simp only [printColor]
    rw [exHuge_red]
    exact static_cast_int_of_large _ (by norm_num)
  refine ⟨exHuge_rayIntersect, lt_numeric_limits_max 4 (by norm_num), exLight_intensity,
    by simp [exHuge], by simp [exHuge], by simp [exHuge], by simp [exHuge], by simp [exHuge],
    exHuge_red, hp, ?_⟩
  rw [hp]
  norm_num

/-- C18, amended: for every hit (a sphere `s` that passes the test of `castRay` after
spheres `pre` that do not), if every light intensity is non-negative, `albedo[0]` and
`albedo[1]` of the material of `s` are non-negative, every component of its
`diffuseColor` is non-negative and its specular exponent is non-negative, then every
channel of the colour returned by `castRay` is non-negative; the integer `printColor`
emits for a channel is non-negative when `255 * channel` is below `2^31`, and is `INT_MIN`
once `255 * channel` reaches `2^31`, the end of the range of `int`.  There is no upper
bound on the channels: under the same conditions the red channel exceeds any given `B`. -/
theorem castRay_channels_nonneg (orig dir : Vector ℝ) (pre : List (Sphere ℝ)) (s : Sphere ℝ)
    (rest : List (Sphere ℝ)) (lights : List (Light ℝ)) (t : ℝ)
    (hpre : ∀ p ∈ pre, castRay_isHit orig dir p = false)
    (hs : s.rayIntersect orig dir = some t) (hlt : t < numeric_limits_max)
    (hI : ∀ l ∈ lights, 0 ≤ l.intensity)
    (ha0 : 0 ≤ s.material.albedo 0) (ha1 : 0 ≤ s.material.albedo 1)
    (hx : 0 ≤ s.material.diffuseColor.x) (hy : 0 ≤ s.material.diffuseColor.y)
    (hz : 0 ≤ s.material.diffuseColor.z) (_he : 0 ≤ s.material.specularExponent) :
    (0 ≤ (castRay orig dir (pre ++ s :: rest) lights).x ∧
     0 ≤ (castRay orig dir (pre ++ s :: rest) lights).y ∧
     0 ≤ (castRay orig dir (pre ++ s :: rest) lights).z) ∧
    ((255 * (castRay orig dir (pre ++ s :: rest) lights).x < 2147483648 →
        0 ≤ (printColor (castRay orig dir (pre ++ s :: rest) lights)).1) ∧
     (255 * (castRay orig dir (pre ++ s :: rest) lights).y < 2147483648 →
        0 ≤ (printColor (castRay orig dir (pre ++ s :: rest) lights)).2.1) ∧
     (255 * (castRay orig dir (pre ++ s :: rest) lights).z < 2147483648 →
        0 ≤ (printColor (castRay orig dir (pre ++ s :: rest) lights)).2.2)) ∧
    ((2147483648 ≤ 255 * (castRay orig dir (pre ++ s :: rest) lights).x →
        (printColor (castRay orig dir (pre ++ s :: rest) lights)).1 = -2147483648) ∧
     (2147483648 ≤ 255 * (castRay orig dir (pre ++ s :: rest) lights).y →
        (printColor (castRay orig dir (pre ++ s :: rest) lights)).2.1 = -2147483648) ∧
     (2147483648 ≤ 255 * (castRay orig dir (pre ++ s :: rest) lights).z →
        (printColor (castRay orig dir (pre ++ s :: rest) lights)).2.2 = -2147483648)) ∧
    (∀ B : ℝ, 0 ≤ B → ∃ m : Material ℝ,
      0 ≤ m.albedo 0 ∧ 0 ≤ m.albedo 1 ∧
      0 ≤ m.diffuseColor.x ∧ 0 ≤ m.diffuseColor.y ∧ 0 ≤ m.diffuseColor.z ∧
      0 ≤ m.specularExponent ∧
      (∀ l ∈ ([exLight] : List (Light ℝ)), 0 ≤ l.intensity) ∧
      B < (castRay (exOrigin : Vector ℝ) exDir [Sphere.mk ⟨0, 0, -5⟩ 1 m] [exLight]).x) := by
  have hc : castRay orig dir (pre ++ s :: rest) lights
      = castRay_shade orig dir Vector.default s t lights := by
    rw [castRay_append_miss orig dir lights pre _ hpre, castRay_cons_hit _ _ _ _ _ t hs hlt]
  have h := castRay_shade_nonneg orig dir Vector.default s t lights hI ha0 ha1 hx hy hz
  rw [hc]
  simp only [printColor]
  refine ⟨h, ⟨?_, ?_, ?_⟩, ⟨?_, ?_, ?_⟩, ?_⟩
  · exact fun hb => static_cast_int_nonneg _ (mul_nonneg (by norm_num) h.1) hb
  · exact fun hb => static_cast_int_nonneg _ (mul_nonneg (by norm_num) h.2.1) hb
  · exact fun hb => static_cast_int_nonneg _ (mul_nonneg (by norm_num) h.2.2) hb
  · exact fun hb => static_cast_int_of_large _ hb
  · exact fun hb => static_cast_int_of_large _ hb
  · exact fun hb => static_cast_int_of_large _ hb
  · intro B hB
    refine ⟨⟨1, ![1, 0, 0, 0], ⟨B + 1, 0, 0⟩, 1⟩, by simp, by simp, ?_, le_rfl, le_rfl,
      zero_le_one, exLight_intensity, ?_⟩
    · show 0 ≤ B + 1
      linarith
    · rw [exShade_red]
      linarith

/-- Instance of `castRay_channels_nonneg` at the sphere `exNear` under `exLight`: the
colour is `(0, 1, 0)` and the integers emitted are non-negative. -/
theorem castRay_channels_nonneg_witness :
    (exNear : Sphere ℝ).rayIntersect exOrigin exDir = some 4 ∧
    (4 : ℝ) < numeric_limits_max ∧
    (∀ l ∈ ([exLight] : List (Light ℝ)), 0 ≤ l.intensity) ∧
    0 ≤ (exNear : Sphere ℝ).material.specularExponent ∧
    255 * (castRay (exOrigin : Vector ℝ) exDir ([] ++ exNear :: [exFar]) [exLight]).x
      < 2147483648 ∧
    (0 ≤ (castRay (exOrigin : Vector ℝ) exDir ([] ++ exNear :: [exFar]) [exLight]).x ∧
     0 ≤ (castRay (exOrigin : Vector ℝ) exDir ([] ++ exNear :: [exFar]) [exLight]).y ∧
     0 ≤ (castRay (exOrigin : Vector ℝ) exDir ([] ++ exNear :: [exFar]) [exLight]).z) ∧
    0 ≤ (printColor (castRay (exOrigin : Vector ℝ) exDir ([] ++ exNear :: [exFar])
        [exLight])).1 :=
  let hb : 255 * (castRay (exOrigin : Vector ℝ) exDir ([] ++ exNear :: [exFar]) [exLight]).x
      < 2147483648 := by rw [exNear_color]; norm_num
  let h := castRay_channels_nonneg (exOrigin : Vector ℝ) exDir [] exNear [exFar] [exLight] 4
    (fun _ hp => absurd hp (List.not_mem_nil _)) exNear_rayIntersect
    (lt_numeric_limits_max 4 (by norm_num)) exLight_intensity
    (by simp [exNear, exGreen]) (by simp [exNear, exGreen])
    (by simp [exNear, exGreen]) (by simp [exNear, exGreen]) (by simp [exNear, exGreen])
    (by simp [exNear, exGreen])
  ⟨exNear_rayIntersect, lt_numeric_limits_max 4 (by norm_num), exLight_intensity,
    by simp [exNear, exGreen], hb, h.1, h.2.1.1 hb⟩

end Channels

/-! ## The scene of `main` -/

section MainScene

theorem tcaOf_unit_vector (s : Sphere ℝ) (orig v : Vector ℝ) :
    tcaOf s orig (unit_vector v) = 1 / v.length * dot (s.center.sub orig) v := by
  simp only [tcaOf, dot, unit_vector, Vector.divScalar, Vector.scalarMul]
  ring

theorem d2Of_unit_vector (s : Sphere ℝ) (orig v : Vector ℝ) (hv : 0 < dot v v) :
    d2Of s orig (unit_vector v)
      = dot (s.center.sub orig) (s.center.sub orig)
        - dot (s.center.sub orig) v ^ 2 / dot v v := by
  have hne := length_ne_zero_of_dot_pos v hv
  have hm := length_mul_self v
  unfold d2Of
  rw [tcaOf_unit_vector, ← hm]
  field_simp
  ring

/-- A ray through `unit_vector(v)` misses the sphere when the distance of the centre to
the line exceeds the radius, written without division or square root. -/
theorem rayIntersect_unit_vector_miss (s : Sphere ℝ) (orig v : Vector ℝ) (hv : 0 < dot v v)
    (h : dot (s.center.sub orig) v ^ 2
        < (dot (s.center.sub orig) (s.center.sub orig) - s.radius * s.radius) * dot v v) :
    s.rayIntersect orig (unit_vector v) = none := by
  apply rayIntersect_of_d2_gt
  rw [d2Of_unit_vector s orig v hv, gt_iff_lt, lt_sub_comm, div_lt_iff₀ hv]
  linarith

theorem main_pixelVector_first :
    main_pixelVector (F := ℝ) 0 767 = ⟨-(1023 / 768), 767 / 768, -1⟩ := by
  simp only [main_pixelVector, imageWidth, imageHeight]
  norm_num

theorem castRay_isHit_of_none (orig dir : Vector ℝ) (s : Sphere ℝ)
    (h : s.rayIntersect orig dir = none) : castRay_isHit orig dir s = false := by
  unfold castRay_isHit; rw [h]

/-- The ray of the first pixel printed misses each of the four spheres. -/
theorem main_first_pixel_misses :
    (main_spheres : List (Sphere ℝ)).map
        (fun s => s.rayIntersect ⟨0, 0, 0⟩ (main_dir (F := ℝ) 0 767))
      = [none, none, none, none] := by
  have hv : 0 < dot (⟨-(1023 / 768), 767 / 768, -1⟩ : Vector ℝ) ⟨-(1023 / 768), 767 / 768, -1⟩ := by
    simp only [dot]; norm_num
  simp only [main_spheres, List.map, main_dir, main_pixelVector_first]
  rw [rayIntersect_unit_vector_miss _ _ _ hv
      (by simp only [dot, Vector.sub, Sphere.new]; norm_num),
    rayIntersect_unit_vector_miss _ _ _ hv
      (by simp only [dot, Vector.sub, Sphere.new]; norm_num),
    rayIntersect_unit_vector_miss _ _ _ hv
      (by simp only [dot, Vector.sub, Sphere.new]; norm_num),
    rayIntersect_unit_vector_miss _ _ _ hv
      (by simp only [dot, Vector.sub, Sphere.new]; norm_num)]

theorem castRay_all_none (orig dir : Vector ℝ) (lights : List (Light ℝ))
    (spheres : List (Sphere ℝ))
    (h : ∀ s ∈ spheres, s.rayIntersect orig dir = none) :
    castRay orig dir spheres lights = ⟨0.2, 0.7, 0.8⟩ := by
  have := castRay_append_miss orig dir lights spheres []
    (fun p hp => castRay_isHit_of_none orig dir p (h p hp))
  rw [List.append_nil] at this
  rw [this]; rfl

theorem main_color_first : main_color (F := ℝ) 0 767 = ⟨0.2, 0.7, 0.8⟩ := by
  apply castRay_all_none
  intro s hs
  have h := main_first_pixel_misses
  simp only [main_spheres, List.map, List.cons.injEq, and_true] at h
  simp only [main_spheres, List.mem_cons, List.mem_singleton, List.not_mem_nil, or_false] at hs
  rcases hs with rfl | rfl | rfl | rfl
  · exact h.1
  · exact h.2.1
  · exact h.2.2.1
  · exact h.2.2.2

theorem static_cast_int_eq (x : ℝ) (z : ℤ) (h0 : 0 ≤ x) (h1 : (z : ℝ) ≤ x)
    (h2 : x < (z : ℝ) + 1) (h3 : x < 2147483648) : static_cast_int x = z := by
  rw [static_cast_int_of_nonneg x h0 h3]
  exact Int.floor_eq_iff.mpr ⟨h1, h2⟩

theorem printColor_background :
    printColor (⟨0.2, 0.7, 0.8⟩ : Vector ℝ) = (51, 178, 204) := by
  simp only [printColor]
  rw [static_cast_int_eq (255 * 0.2) 51 (by norm_num) (by norm_num) (by norm_num)
      (by norm_num),
    static_cast_int_eq (255 * 0.7) 178 (by norm_num) (by norm_num) (by norm_num)
      (by norm_num),
    static_cast_int_eq (255 * 0.8) 204 (by norm_num) (by norm_num) (by norm_num)
      (by norm_num)]

/-- C11: for the scene of `main`, the ray of the first pixel printed (loop index
`j = 767`, column `i = 0`) misses all four spheres, `castRay` returns the background
colour `(0.2, 0.7, 0.8)`, and `printColor` emits `(51, 178, 204)`, the truncations toward
zero of `255 * channel`; this is the first triple of the output. -/
theorem first_pixel_is_background :
    (main_spheres : List (Sphere ℝ)).map
        (fun s => s.rayIntersect ⟨0, 0, 0⟩ (main_dir (F := ℝ) 0 767))
      = [none, none, none, none] ∧
    main_color (F := ℝ) 0 767 = ⟨0.2, 0.7, 0.8⟩ ∧
    main_pixel (F := ℝ) 0 767 = (51, 178, 204) ∧
    (main_output (F := ℝ))[0]? = some (51, 178, 204) := by
  have hp : main_pixel (F := ℝ) 0 767 = (51, 178, 204) := by
    rw [main_pixel, main_color_first, printColor_background]
  refine ⟨main_first_pixel_misses, main_color_first, hp, ?_⟩
  rw [main_output, main_rows_getElem imageHeight 0 (by norm_num [imageHeight, imageWidth])]
  have e1 : 0 % imageWidth = 0 := rfl
  have e2 : imageHeight - 1 - 0 / imageWidth = 767 := rfl
  rw [e1, e2, hp]

theorem lt_numeric_limits_max_of_le (t : ℝ) (h : t ≤ 1000) : t < numeric_limits_max := by
  have : (1000 : ℝ) < numeric_limits_max := by unfold numeric_limits_max; norm_num
  linarith

/-- From an origin outside the sphere (or on it), past the two early rejections the
entry distance `tca - thc` is returned. -/
theorem rayIntersect_of_outside_pass (s : Sphere ℝ) (orig direction : Vector ℝ)
    (h1 : 0 ≤ tcaOf s orig direction)
    (h2 : d2Of s orig direction ≤ s.radius * s.radius)
    (hout : s.radius * s.radius ≤ dot (s.center.sub orig) (s.center.sub orig)) :
    s.rayIntersect orig direction
      = some (tcaOf s orig direction - thcOf s orig direction) := by
  have hthc := thcOf_nonneg s orig direction
  have hq := thcOf_mul_self s orig direction h2
  have hle : thcOf s orig direction ≤ tcaOf s orig direction := by
    by_contra hlt
    have hlt := not_le.mp hlt
    have : tcaOf s orig direction * tcaOf s orig direction
        < thcOf s orig direction * thcOf s orig direction := by nlinarith
    unfold d2Of at hq
    linarith
  rw [rayIntersect_of_pass s orig direction h1 h2, if_neg (by linarith)]

theorem dot_mulFloat (a b : Vector ℝ) (p q : ℝ) :
    dot (a.mulFloat p) (b.mulFloat q) = p * q * dot a b := by
  simp only [dot, Vector.mulFloat]; ring

/-- With a single light of non-negative intensity, the red channel computed for a hit is
at least its diffuse part taken without the clamp `max(0, .)`. -/
theorem castRay_shade_single_light_x (orig dir point : Vector ℝ) (s : Sphere ℝ) (t : ℝ)
    (l : Light ℝ) (hI : 0 ≤ l.intensity) (hx : 0 ≤ s.material.diffuseColor.x)
    (ha0 : 0 ≤ s.material.albedo 0) (ha1 : 0 ≤ s.material.albedo 1) :
    s.material.diffuseColor.x
        * (l.intensity * dot (l.position.sub point).normalized
            ((orig.add (dir.mulScalar t)).sub s.center).normalized)
        * s.material.albedo 0
      ≤ (castRay_shade orig dir point s t [l]).x := by
  simp only [castRay_shade, List.foldl, castRay_lightStep, Vector.add, Vector.mulScalar,
    pow_real]
  have hP := Real.rpow_nonneg (le_max_left 0
    (dot (l.position.sub point).normalized
      (reflect (l.position.sub point).normalized
        ((orig.add (dir.mulScalar t)).sub s.center).normalized).neg))
    s.material.specularExponent
  have h1 := mul_le_mul_of_nonneg_left (le_max_right 0
    (dot (l.position.sub point).normalized
      ((orig.add (dir.mulScalar t)).sub s.center).normalized)) hI
  have h2 := mul_le_mul_of_nonneg_right (mul_le_mul_of_nonneg_left h1 hx) ha0
  have h3 := mul_nonneg (mul_nonneg zero_le_one (mul_nonneg hI hP)) ha1
  simp only [zero_add]
  exact le_trans h2 (le_add_of_nonneg_right h3)

theorem main_pixelVector_bright : main_pixelVector (F := ℝ) 402 412 = brightVector := by
  simp only [main_pixelVector, imageWidth, imageHeight, brightVector]
  norm_num

theorem brightVector_dot :
    dot (brightVector : Vector ℝ) brightVector = 641034 / 589824 := by
  simp only [dot, brightVector]; norm_num

/-- The arithmetic of the pixel `(402, 412)`: `u` is `1 / |v|`, `m` is
`|light.position - point|`, and the bounded quantity is `dot(lightDirection, N)`. -/
theorem bright_arith (u thc m : ℝ) (hu0 : 0 < u) (huu : u * u = 589824 / 641034)
    (hthc : 1 / 2 ≤ thc) (hm0 : 0 < m) (hmm : m * m = 1163) :
    97 / 100 ≤ 1 / m * (1 / 2)
      * ((u * (12945 / 768) - thc) * u * (-(8910 / 768)) + 241) := by
  have hu : 19 / 20 ≤ u := by
    by_contra h
    have h := not_le.mp h
    have : u * u < 19 / 20 * (19 / 20) := by nlinarith
    rw [huu] at this
    norm_num at this
  have hm : m ≤ 3411 / 100 := by
    by_contra h
    have h := not_le.mp h
    have : 3411 / 100 * (3411 / 100) < m * m := by nlinarith
    rw [hmm] at this
    norm_num at this
  have htu : 1 / 2 * (19 / 20) ≤ thc * u := by nlinarith
  have hE : 665 / 10 ≤ (u * (12945 / 768) - thc) * u * (-(8910 / 768)) + 241 := by
    have e : (u * (12945 / 768) - thc) * u * (-(8910 / 768)) + 241
        = 241 - 12945 / 768 * (8910 / 768) * (u * u) + 8910 / 768 * (thc * u) := by ring
    rw [e, huu]
    have : 8910 / 768 * (1 / 2 * (19 / 20)) ≤ 8910 / 768 * (thc * u) :=
      mul_le_mul_of_nonneg_left htu (by norm_num)
    norm_num at this ⊢
    linarith
  have e2 : 1 / m * (1 / 2) * ((u * (12945 / 768) - thc) * u * (-(8910 / 768)) + 241)
      = ((u * (12945 / 768) - thc) * u * (-(8910 / 768)) + 241) / (2 * m) := by
    ring
  rw [e2, le_div_iff₀ (by positivity)]
  nlinarith

theorem brightVector_length_pos : 0 < (brightVector : Vector ℝ).length := by
  have h : (brightVector : Vector ℝ).length ≠ 0 :=
    length_ne_zero_of_dot_pos _ (by rw [brightVector_dot]; norm_num)
  exact lt_of_le_of_ne (length_nonneg _) (Ne.symm h)

theorem bright_u :
    0 < 1 / (brightVector : Vector ℝ).length ∧
    1 / (brightVector : Vector ℝ).length * (1 / (brightVector : Vector ℝ).length)
      = 589824 / 641034 := by
  have hpos := brightVector_length_pos
  have hm := length_mul_self (brightVector : Vector ℝ)
  rw [brightVector_dot] at hm
  refine ⟨by positivity, ?_⟩
  have e : 1 / (brightVector : Vector ℝ).length * (1 / (brightVector : Vector ℝ).length)
      = 1 / ((brightVector : Vector ℝ).length * (brightVector : Vector ℝ).length) := by ring
  rw [e, hm]; norm_num

theorem bright_tca :
    tcaOf (main_sphere1 : Sphere ℝ) ⟨0, 0, 0⟩ (unit_vector brightVector)
      = 1 / (brightVector : Vector ℝ).length * (12945 / 768) := by
  rw [tcaOf_unit_vector]
  congr 1
  simp only [dot, Vector.sub, main_sphere1, Sphere.new, brightVector]; norm_num

theorem bright_d2 :
    d2Of (main_sphere1 : Sphere ℝ) ⟨0, 0, 0⟩ (unit_vector brightVector) ≤ 15 / 4 := by
  have e : ∀ u : ℝ, u * (12945 / 768) * (u * (12945 / 768))
      = u * u * (12945 / 768 * (12945 / 768)) := fun u => by ring
  unfold d2Of
  rw [bright_tca, e, bright_u.2]
  simp only [dot, Vector.sub, main_sphere1, Sphere.new]; norm_num

theorem bright_thc :
    1 / 2 ≤ thcOf (main_sphere1 : Sphere ℝ) ⟨0, 0, 0⟩ (unit_vector brightVector) := by
  unfold thcOf
  rw [sqrt_real, Real.le_sqrt' (by norm_num)]
  have h := bright_d2
  have hr : (main_sphere1 : Sphere ℝ).radius = 2 := rfl
  rw [hr]
  linarith

theorem bright_rayIntersect :
    (main_sphere1 : Sphere ℝ).rayIntersect ⟨0, 0, 0⟩ (unit_vector brightVector)
      = some (tcaOf (main_sphere1 : Sphere ℝ) ⟨0, 0, 0⟩ (unit_vector brightVector)
          - thcOf (main_sphere1 : Sphere ℝ) ⟨0, 0, 0⟩ (unit_vector brightVector)) := by
  have hr : (main_sphere1 : Sphere ℝ).radius = 2 := rfl
  apply rayIntersect_of_outside_pass
  · rw [bright_tca]
    exact mul_nonneg bright_u.1.le (by norm_num)
  · rw [hr]; linarith [bright_d2]
  · rw [hr]
    simp only [dot, Vector.sub, main_sphere1, Sphere.new]; norm_num

theorem bright_t_le :
    tcaOf (main_sphere1 : Sphere ℝ) ⟨0, 0, 0⟩ (unit_vector brightVector)
      - thcOf (main_sphere1 : Sphere ℝ) ⟨0, 0, 0⟩ (unit_vector brightVector) ≤ 1000 := by
  have hu := bright_u
  have hthc := bright_thc
  rw [bright_tca]
  have hu1 : 1 / (brightVector : Vector ℝ).length ≤ 1 := by
    by_contra h
    have h := not_le.mp h
    have : (1 : ℝ) < 1 / (brightVector : Vector ℝ).length
        * (1 / (brightVector : Vector ℝ).length) := by nlinarith
    rw [hu.2] at this
    norm_num at this
  nlinarith

/-- The light direction computed by `castRay` in the scene of `main`. -/
theorem main_light_w :
    (main_light : Light ℝ).position.sub Vector.default = ⟨-21, 19, 19⟩ := by
  simp only [main_light, Light.new, Vector.sub, Vector.default]; norm_num

/-- At the pixel `(402, 412)` of the scene of `main` the red channel is above
`256 / 255`. -/
theorem bright_red : 256 ≤ 255 * (main_color (F := ℝ) 402 412).x := by
  have hdir : (unit_vector (brightVector : Vector ℝ)).length = 1 :=
    unit_vector_length _ brightVector_length_pos.ne'
  have hr : (0 : ℝ) < (main_sphere1 : Sphere ℝ).radius := by
    show (0 : ℝ) < 2
    norm_num
  have hc : main_color (F := ℝ) 402 412
      = castRay_shade ⟨0, 0, 0⟩ (unit_vector brightVector) Vector.default main_sphere1
          (tcaOf (main_sphere1 : Sphere ℝ) ⟨0, 0, 0⟩ (unit_vector brightVector)
            - thcOf (main_sphere1 : Sphere ℝ) ⟨0, 0, 0⟩ (unit_vector brightVector))
          [main_light] := by
    rw [main_color, main_dir, main_pixelVector_bright]
    exact castRay_cons_hit _ _ main_sphere1 _ _ _ bright_rayIntersect
      (lt_numeric_limits_max_of_le _ bright_t_le)
  obtain ⟨_, hon, _⟩ := rayIntersect_sound main_sphere1 ⟨0, 0, 0⟩ (unit_vector brightVector)
    hdir hr _ bright_rayIntersect
  have hlow := castRay_shade_single_light_x ⟨0, 0, 0⟩ (unit_vector brightVector)
    Vector.default main_sphere1
    (tcaOf (main_sphere1 : Sphere ℝ) ⟨0, 0, 0⟩ (unit_vector brightVector)
      - thcOf (main_sphere1 : Sphere ℝ) ⟨0, 0, 0⟩ (unit_vector brightVector))
    main_light
    (by norm_num [main_light, Light.new])
    (by norm_num [main_sphere1, Sphere.new, ivory, Material.new])
    (by norm_num [main_sphere1, Sphere.new, ivory, Material.new])
    (by norm_num [main_sphere1, Sphere.new, ivory, Material.new])
  rw [← hc] at hlow
  -- the two normalised vectors
  have hw : dot (⟨-21, 19, 19⟩ : Vector ℝ) ⟨-21, 19, 19⟩ = 1163 := by
    simp only [dot]; norm_num
  have hwl := length_mul_self (⟨-21, 19, 19⟩ : Vector ℝ)
  rw [hw] at hwl
  have hwpos : 0 < (⟨-21, 19, 19⟩ : Vector ℝ).length :=
    lt_of_le_of_ne (length_nonneg _)
      (Ne.symm (length_ne_zero_of_dot_pos _ (by rw [hw]; norm_num)))
  have hD : 97 / 100 ≤ dot ((main_light : Light ℝ).position.sub Vector.default).normalized
      (((⟨0, 0, 0⟩ : Vector ℝ).add ((unit_vector brightVector).mulScalar
        (tcaOf (main_sphere1 : Sphere ℝ) ⟨0, 0, 0⟩ (unit_vector brightVector)
          - thcOf (main_sphere1 : Sphere ℝ) ⟨0, 0, 0⟩ (unit_vector brightVector)))).sub
        (main_sphere1 : Sphere ℝ).center).normalized := by
    rw [main_light_w, Vector.normalized, Vector.normalized, hon, dot_mulFloat]
    have e : dot (⟨-21, 19, 19⟩ : Vector ℝ)
        (((⟨0, 0, 0⟩ : Vector ℝ).add ((unit_vector brightVector).mulScalar
          (tcaOf (main_sphere1 : Sphere ℝ) ⟨0, 0, 0⟩ (unit_vector brightVector)
            - thcOf (main_sphere1 : Sphere ℝ) ⟨0, 0, 0⟩ (unit_vector brightVector)))).sub
          (main_sphere1 : Sphere ℝ).center)
        = (1 / (brightVector : Vector ℝ).length * (12945 / 768)
            - thcOf (main_sphere1 : Sphere ℝ) ⟨0, 0, 0⟩ (unit_vector brightVector))
          * (1 / (brightVector : Vector ℝ).length) * (-(8910 / 768)) + 241 := by
      rw [bright_tca]
      simp only [dot, Vector.add, Vector.sub, Vector.mulScalar, unit_vector, Vector.divScalar,
        Vector.scalarMul, brightVector, main_sphere1, Sphere.new]
      ring
    rw [e]
    have hr2 : (main_sphere1 : Sphere ℝ).radius = 2 := rfl
    rw [hr2]
    exact bright_arith _ _ _ bright_u.1 bright_u.2 bright_thc hwpos hwl
  have hmat : (main_sphere1 : Sphere ℝ).material.diffuseColor.x = 0.4
      ∧ (main_light : Light ℝ).intensity = 3.0
      ∧ (main_sphere1 : Sphere ℝ).material.albedo 0 = 0.9 := by
    simp [main_sphere1, Sphere.new, ivory, Material.new, main_light, Light.new]
  rw [hmat.1, hmat.2.1, hmat.2.2] at hlow
  norm_num at hlow ⊢
  linarith

/-- The result of `castRay` is the background colour or the colour computed for one of
the spheres of the list. -/
theorem castRay_cases (orig dir : Vector ℝ) (spheres : List (Sphere ℝ))
    (lights : List (Light ℝ)) :
    castRay orig dir spheres lights = ⟨0.2, 0.7, 0.8⟩ ∨
    ∃ s ∈ spheres, ∃ t, s.rayIntersect orig dir = some t ∧
      castRay orig dir spheres lights = castRay_shade orig dir Vector.default s t lights := by
  induction spheres with
  | nil => left; rfl
  | cons s rest ih =>
    by_cases hs : castRay_isHit orig dir s = true
    · obtain ⟨t, ht, _, hc⟩ := castRay_cons_isHit orig dir s rest lights hs
      exact Or.inr ⟨s, List.mem_cons_self _ _, t, ht, hc⟩
    · have hs : castRay_isHit orig dir s = false := by simpa using hs
      rw [castRay_cons_miss orig dir s rest lights hs]
      rcases ih with h | ⟨s', hs', t, ht, hc⟩
      · exact Or.inl h
      · exact Or.inr ⟨s', List.mem_cons_of_mem _ hs', t, ht, hc⟩

/-- The result of `normalized()` has `dot` with itself at most 1. -/
theorem normalized_dot_self_le_one (v : Vector ℝ) : dot v.normalized v.normalized ≤ 1 := by
  rw [Vector.normalized, dot_mulFloat]
  by_cases h : v.length = 0
  · rw [h]; norm_num
  · rw [← length_mul_self]
    have : 1 / v.length * (1 / v.length) * (v.length * v.length) = 1 := by field_simp
    rw [this]

/-- The Cauchy-Schwarz inequality for `dot`. -/
theorem dot_sq_le (a b : Vector ℝ) : dot a b ^ 2 ≤ dot a a * dot b b := by
  have e : dot a a * dot b b - dot a b ^ 2
      = (a.x * b.y - a.y * b.x) ^ 2 + (a.x * b.z - a.z * b.x) ^ 2
        + (a.y * b.z - a.z * b.y) ^ 2 := by
    simp only [dot]; ring
  have h : 0 ≤ dot a a * dot b b - dot a b ^ 2 := by rw [e]; positivity
  linarith

/-- The two quantities clamped in the light loop are at most 1 for normalised vectors. -/
theorem lightStep_terms_le_one (a b : Vector ℝ) :
    dot a.normalized b.normalized ≤ 1 ∧
    dot a.normalized (reflect a.normalized b.normalized).neg ≤ 1 := by
  have ha := normalized_dot_self_le_one a
  have hb := normalized_dot_self_le_one b
  have ha0 := dot_self_nonneg a.normalized
  have hb0 := dot_self_nonneg b.normalized
  have hcs := dot_sq_le a.normalized b.normalized
  have hsq : dot a.normalized b.normalized ^ 2 ≤ dot a.normalized a.normalized := by
    nlinarith
  refine ⟨by nlinarith, ?_⟩
  rw [dot_neg_reflect]
  nlinarith

/-- With a single light of non-negative intensity and a non-negative specular exponent,
each channel computed for a normalised normal is at most
`diffuseColor * intensity * albedo[0] + intensity * albedo[1]`. -/
theorem shadeOfNormal_single_light_le (b point : Vector ℝ) (m : Material ℝ)
    (l : Light ℝ) (hI : 0 ≤ l.intensity) (he : 0 ≤ m.specularExponent)
    (ha0 : 0 ≤ m.albedo 0) (ha1 : 0 ≤ m.albedo 1)
    (hx : 0 ≤ m.diffuseColor.x) (hy : 0 ≤ m.diffuseColor.y) (hz : 0 ≤ m.diffuseColor.z) :
    (castRay_shadeOfNormal b.normalized point m [l]).x
      ≤ m.diffuseColor.x * l.intensity * m.albedo 0 + l.intensity * m.albedo 1 ∧
    (castRay_shadeOfNormal b.normalized point m [l]).y
      ≤ m.diffuseColor.y * l.intensity * m.albedo 0 + l.intensity * m.albedo 1 ∧
    (castRay_shadeOfNormal b.normalized point m [l]).z
      ≤ m.diffuseColor.z * l.intensity * m.albedo 0 + l.intensity * m.albedo 1 := by
  obtain ⟨hD, hB⟩ := lightStep_terms_le_one (l.position.sub point) b
  have hd : 0 + l.intensity * max 0 (dot (l.position.sub point).normalized b.normalized)
      ≤ l.intensity := by
    have := mul_le_mul_of_nonneg_left (max_le zero_le_one hD) hI
    linarith
  have h1 : Real.rpow (max 0 (dot (l.position.sub point).normalized
      (reflect (l.position.sub point).normalized b.normalized).neg)) m.specularExponent ≤ 1 :=
    Real.rpow_le_one (le_max_left 0 _) (max_le zero_le_one hB) he
  have hs : 0 + l.intensity * Real.rpow (max 0 (dot (l.position.sub point).normalized
      (reflect (l.position.sub point).normalized b.normalized).neg)) m.specularExponent
      ≤ l.intensity := by
    have := mul_le_mul_of_nonneg_left h1 hI
    linarith
  simp only [castRay_shadeOfNormal, List.foldl, castRay_lightStep, Vector.add,
    Vector.mulScalar, pow_real]
  have hs1 := mul_le_mul_of_nonneg_right hs ha1
  refine ⟨?_, ?_, ?_⟩
  · have := mul_le_mul_of_nonneg_right (mul_le_mul_of_nonneg_left hd hx) ha0
    linarith
  · have := mul_le_mul_of_nonneg_right (mul_le_mul_of_nonneg_left hd hy) ha0
    linarith
  · have := mul_le_mul_of_nonneg_right (mul_le_mul_of_nonneg_left hd hz) ha0
    linarith

/-- The bound of `shadeOfNormal_single_light_le` for the colour computed by `castRay`. -/
theorem castRay_shade_single_light_le (orig dir point : Vector ℝ) (s : Sphere ℝ) (t : ℝ)
    (l : Light ℝ) (hI : 0 ≤ l.intensity) (he : 0 ≤ s.material.specularExponent)
    (ha0 : 0 ≤ s.material.albedo 0) (ha1 : 0 ≤ s.material.albedo 1)
    (hx : 0 ≤ s.material.diffuseColor.x) (hy : 0 ≤ s.material.diffuseColor.y)
    (hz : 0 ≤ s.material.diffuseColor.z) :
    (castRay_shade orig dir point s t [l]).x
      ≤ s.material.diffuseColor.x * l.intensity * s.material.albedo 0
        + l.intensity * s.material.albedo 1 ∧
    (castRay_shade orig dir point s t [l]).y
      ≤ s.material.diffuseColor.y * l.intensity * s.material.albedo 0
        + l.intensity * s.material.albedo 1 ∧
    (castRay_shade orig dir point s t [l]).z
      ≤ s.material.diffuseColor.z * l.intensity * s.material.albedo 0
        + l.intensity * s.material.albedo 1 := by
  rw [castRay_shade_eq_shadeOfNormal]
  exact shadeOfNormal_single_light_le _ point s.material l hI he ha0 ha1 hx hy hz

theorem static_cast_int_le (x : ℝ) (z : ℤ) (h0 : 0 ≤ x) (h : x < (z : ℝ) + 1)
    (h1 : x < 2147483648) : static_cast_int x ≤ z := by
  rw [static_cast_int_of_nonneg x h0 h1]
  have : ⌊x⌋ < z + 1 := Int.floor_lt.mpr (by push_cast; exact h)
  omega

/-- In the scene of `main` every channel of the colour of every pixel is between 0 and
`2.58 = 0.4 * 3 * 0.9 + 3 * 0.5`. -/
theorem main_color_bounds (i j : ℕ) :
    (0 ≤ (main_color (F := ℝ) i j).x ∧ (main_color (F := ℝ) i j).x ≤ 2.58) ∧
    (0 ≤ (main_color (F := ℝ) i j).y ∧ (main_color (F := ℝ) i j).y ≤ 2.58) ∧
    (0 ≤ (main_color (F := ℝ) i j).z ∧ (main_color (F := ℝ) i j).z ≤ 2.58) := by
  have hl : (main_lights : List (Light ℝ)) = [main_light] := rfl
  have hI : (0 : ℝ) ≤ (main_light : Light ℝ).intensity := by
    norm_num [main_light, Light.new]
  have hI3 : (main_light : Light ℝ).intensity = 3 := by
    norm_num [main_light, Light.new]
  unfold main_color
  rcases castRay_cases ⟨0, 0, 0⟩ (main_dir (F := ℝ) i j) main_spheres main_lights with
    h | ⟨s, hs, t, _, hc⟩
  · rw [h]; norm_num
  · rw [hc, hl]
    have key : ∀ m : Material ℝ, s.material = m →
        0 ≤ m.specularExponent → 0 ≤ m.albedo 0 → 0 ≤ m.albedo 1 →
        0 ≤ m.diffuseColor.x → 0 ≤ m.diffuseColor.y → 0 ≤ m.diffuseColor.z →
        m.diffuseColor.x * 3 * m.albedo 0 + 3 * m.albedo 1 ≤ 2.58 →
        m.diffuseColor.y * 3 * m.albedo 0 + 3 * m.albedo 1 ≤ 2.58 →
        m.diffuseColor.z * 3 * m.albedo 0 + 3 * m.albedo 1 ≤ 2.58 →
        (0 ≤ (castRay_shade ⟨0, 0, 0⟩ (main_dir (F := ℝ) i j) Vector.default s t
              [main_light]).x ∧
          (castRay_shade ⟨0, 0, 0⟩ (main_dir (F := ℝ) i j) Vector.default s t
              [main_light]).x ≤ 2.58) ∧
        (0 ≤ (castRay_shade ⟨0, 0, 0⟩ (main_dir (F := ℝ) i j) Vector.default s t
              [main_light]).y ∧
          (castRay_shade ⟨0, 0, 0⟩ (main_dir (F := ℝ) i j) Vector.default s t
              [main_light]).y ≤ 2.58) ∧
        (0 ≤ (castRay_shade ⟨0, 0, 0⟩ (main_dir (F := ℝ) i j) Vector.default s t
              [main_light]).z ∧
          (castRay_shade ⟨0, 0, 0⟩ (main_dir (F := ℝ) i j) Vector.default s t
              [main_light]).z ≤ 2.58) := by
      intro m hm he ha0 ha1 hx hy hz bx bY bz
      subst hm
      have hlo := castRay_shade_nonneg ⟨0, 0, 0⟩ (main_dir (F := ℝ) i j) Vector.default s t
        [main_light] (fun l hl' => by rw [List.mem_singleton.mp hl']; exact hI)
        ha0 ha1 hx hy hz
      have hhi := castRay_shade_single_light_le ⟨0, 0, 0⟩ (main_dir (F := ℝ) i j)
        Vector.default s t main_light hI he ha0 ha1 hx hy hz
      rw [hI3] at hhi
      exact ⟨⟨hlo.1, le_trans hhi.1 bx⟩, ⟨hlo.2.1, le_trans hhi.2.1 bY⟩,
        ⟨hlo.2.2, le_trans hhi.2.2 bz⟩⟩
    have hiv : ∀ s' : Sphere ℝ, s'.material = ivory → s = s' →
        (0 ≤ (castRay_shade ⟨0, 0, 0⟩ (main_dir (F := ℝ) i j) Vector.default s t
              [main_light]).x ∧
          (castRay_shade ⟨0, 0, 0⟩ (main_dir (F := ℝ) i j) Vector.default s t
              [main_light]).x ≤ 2.58) ∧
        (0 ≤ (castRay_shade ⟨0, 0, 0⟩ (main_dir (F := ℝ) i j) Vector.default s t
              [main_light]).y ∧
          (castRay_shade ⟨0, 0, 0⟩ (main_dir (F := ℝ) i j) Vector.default s t
              [main_light]).y ≤ 2.58) ∧
        (0 ≤ (castRay_shade ⟨0, 0, 0⟩ (main_dir (F := ℝ) i j) Vector.default s t
              [main_light]).z ∧
          (castRay_shade ⟨0, 0, 0⟩ (main_dir (F := ℝ) i j) Vector.default s t
              [main_light]).z ≤ 2.58) := by
      intro s' hm hs'
      apply key ivory (by rw [hs', hm]) <;> norm_num [ivory, Material.new]
    have hrr : ∀ s' : Sphere ℝ, s'.material = red_rubber → s = s' →
        (0 ≤ (castRay_shade ⟨0, 0, 0⟩ (main_dir (F := ℝ) i j) Vector.default s t
              [main_light]).x ∧
          (castRay_shade ⟨0, 0, 0⟩ (main_dir (F := ℝ) i j) Vector.default s t
              [main_light]).x ≤ 2.58) ∧
        (0 ≤ (castRay_shade ⟨0, 0, 0⟩ (main_dir (F := ℝ) i j) Vector.default s t
              [main_light]).y ∧
          (castRay_shade ⟨0, 0, 0⟩ (main_dir (F := ℝ) i j) Vector.default s t
              [main_light]).y ≤ 2.58) ∧
        (0 ≤ (castRay_shade ⟨0, 0, 0⟩ (main_dir (F := ℝ) i j) Vector.default s t
              [main_light]).z ∧
          (castRay_shade ⟨0, 0, 0⟩ (main_dir (F := ℝ) i j) Vector.default s t
              [main_light]).z ≤ 2.58) := by
      intro s' hm hs'
      apply key red_rubber (by rw [hs', hm]) <;> norm_num [red_rubber, Material.new]
    simp only [main_spheres, List.mem_cons, List.mem_singleton, List.not_mem_nil,
      or_false] at hs
    rcases hs with h1 | h2 | h3 | h4
    · exact hiv _ rfl h1
    · exact hrr _ rfl h2
    · exact hrr _ rfl h3
    · exact hiv _ rfl h4

theorem static_cast_int_ge (x : ℝ) (z : ℤ) (h0 : 0 ≤ x) (h : (z : ℝ) ≤ x)
    (h1 : x < 2147483648) : z ≤ static_cast_int x := by
  rw [static_cast_int_of_nonneg x h0 h1]
  exact Int.le_floor.mpr h

/-- C12: the code does not keep the integers in `[0, 255]`.  In the scene of `main` the
pixel of column `i = 402` and row index `j = 412` is inside the image, and the first
integer `printColor` emits for it is at least 256, above the maximum `255` that `main`
announces in the header of the image. -/
theorem bright_pixel_above_255 :
    402 < imageWidth ∧ 412 < imageHeight ∧
    256 ≤ (main_pixel (F := ℝ) 402 412).1 ∧
    ¬ (main_pixel (F := ℝ) 402 412).1 ≤ 255 := by
  have h : (256 : ℤ) ≤ (main_pixel (F := ℝ) 402 412).1 := by
    simp only [main_pixel, printColor]
    have hb := (main_color_bounds 402 412).1.2
    exact static_cast_int_ge _ 256 (by linarith [bright_red]) (by exact_mod_cast bright_red)
      (by norm_num at hb ⊢; linarith)
  exact ⟨by norm_num [imageWidth], by norm_num [imageHeight], h, by omega⟩

/-- The range the code does keep: for the scene of `main`, for every pixel `(i, j)` each
of the three integers emitted by `printColor` lies in `[0, 657]`, where
`657 = trunc(255 * (0.4 * 3 * 0.9 + 3 * 0.5))`. -/
theorem main_pixel_range (i j : ℕ) :
    (0 ≤ (main_pixel (F := ℝ) i j).1 ∧ (main_pixel (F := ℝ) i j).1 ≤ 657) ∧
    (0 ≤ (main_pixel (F := ℝ) i j).2.1 ∧ (main_pixel (F := ℝ) i j).2.1 ≤ 657) ∧
    (0 ≤ (main_pixel (F := ℝ) i j).2.2 ∧ (main_pixel (F := ℝ) i j).2.2 ≤ 657) := by
  obtain ⟨⟨hx0, hx1⟩, ⟨hy0, hy1⟩, ⟨hz0, hz1⟩⟩ := main_color_bounds i j
  simp only [main_pixel, printColor]
  norm_num at hx1 hy1 hz1
  refine ⟨⟨static_cast_int_nonneg _ (by positivity) (by linarith),
      static_cast_int_le _ _ (by positivity) ?_ (by linarith)⟩,
    ⟨static_cast_int_nonneg _ (by positivity) (by linarith),
      static_cast_int_le _ _ (by positivity) ?_ (by linarith)⟩,
    ⟨static_cast_int_nonneg _ (by positivity) (by linarith),
      static_cast_int_le _ _ (by positivity) ?_ (by linarith)⟩⟩
  · norm_num; linarith
  · norm_num; linarith
  · norm_num; linarith

end MainScene

/-! ## The specular term of the light loop -/

section Specular

/-- The result of `normalized()` has length 1 for a vector of non-zero length. -/
theorem normalized_length (v : Vector ℝ) (h : v.length ≠ 0) : v.normalized.length = 1 := by
  rw [length_eq_iff _ _ zero_le_one, Vector.normalized, dot_mulFloat, ← length_mul_self]
  field_simp

theorem exLight_sub_length :
    ((exLight : Light ℝ).position.sub Vector.default).length ≠ 0 := by
  apply length_ne_zero_of_dot_pos
  simp only [dot, Vector.sub, exLight, Vector.default]; norm_num

/-- The sphere `exNear` seen along `exDir` from the point `(0, 0, 1)`. -/
theorem exNear_rayIntersect_from_one :
    (exNear : Sphere ℝ).rayIntersect ⟨0, 0, 1⟩ exDir = some 5 := by
  have htca : tcaOf (exNear : Sphere ℝ) ⟨0, 0, 1⟩ exDir = 6 := by
    simp only [tcaOf, dot, Vector.sub, exNear, exDir]; norm_num
  have hd2 : d2Of (exNear : Sphere ℝ) ⟨0, 0, 1⟩ exDir = 0 := by
    unfold d2Of; rw [htca]
    simp only [dot, Vector.sub, exNear]; norm_num
  have hthc : thcOf (exNear : Sphere ℝ) ⟨0, 0, 1⟩ exDir = 1 := by
    unfold thcOf; rw [hd2, sqrt_real]
    simp [exNear]
  rw [rayIntersect_of_pass _ _ _ (by rw [htca]; norm_num) (by rw [hd2]; simp [exNear]),
    htca, hthc]
  norm_num

theorem exNear_same_normal :
    (((exOrigin : Vector ℝ).add (exDir.mulScalar 4)).sub (exNear : Sphere ℝ).center).normalized
      = (((⟨0, 0, 1⟩ : Vector ℝ).add (exDir.mulScalar 5)).sub
          (exNear : Sphere ℝ).center).normalized := by
  have e : ((exOrigin : Vector ℝ).add (exDir.mulScalar 4)).sub (exNear : Sphere ℝ).center
      = ((⟨0, 0, 1⟩ : Vector ℝ).add (exDir.mulScalar 5)).sub (exNear : Sphere ℝ).center := by
    simp only [Vector.add, Vector.sub, Vector.mulScalar, exOrigin, exDir, exNear]
    norm_num
  rw [e]

/-- C17: the base of the specular term is
`dot(l, ~reflect(l, N)) = 2 * dot(l, N)^2 - dot(l, l)`, which is `2 * dot(l, N)^2 - 1` for
a unit-length `l` (whatever the length of `N`).  One iteration of the light loop of
`castRay` adds `intensity * max(0, dot(lightDirection, N))` to the diffuse intensity and
`intensity * pow(max(0, 2 * dot(lightDirection, N)^2 - dot(lightDirection,
lightDirection)), specularExponent)` to the specular one, where
`lightDirection = normalize(l.position - point)`; when `l.position - point` has non-zero
length, `lightDirection` has length 1 and the base is `2 * dot(lightDirection, N)^2 - 1`.
Consequently the colour computed for a hit is a function of the normal `N` (with the
material, the lights and the local `point`), and two rays that hit the sphere with the
same normal make `castRay` return the same colour, whatever their origins and
directions. -/
theorem castRay_specular_base (l N : Vector ℝ) :
    dot l (reflect l N).neg = 2 * dot l N ^ 2 - dot l l ∧
    (l.length = 1 → dot l (reflect l N).neg = 2 * dot l N ^ 2 - 1) ∧
    (∀ (point : Vector ℝ) (e : ℝ) (acc : ℝ × ℝ) (light : Light ℝ),
      castRay_lightStep point N e acc light
        = (acc.1 + light.intensity * max 0 (dot (light.position.sub point).normalized N),
           acc.2 + light.intensity *
             CMath.pow
               (max 0 (2 * dot (light.position.sub point).normalized N ^ 2
                 - dot (light.position.sub point).normalized
                     (light.position.sub point).normalized)) e) ∧
      ((light.position.sub point).length ≠ 0 →
        (light.position.sub point).normalized.length = 1 ∧
        castRay_lightStep point N e acc light
          = (acc.1 + light.intensity * max 0 (dot (light.position.sub point).normalized N),
             acc.2 + light.intensity *
               CMath.pow
                 (max 0 (2 * dot (light.position.sub point).normalized N ^ 2 - 1)) e))) ∧
    (∀ (orig dir orig' dir' point : Vector ℝ) (s : Sphere ℝ) (t t' : ℝ)
        (lights : List (Light ℝ)),
      ((orig.add (dir.mulScalar t)).sub s.center).normalized
        = ((orig'.add (dir'.mulScalar t')).sub s.center).normalized →
      castRay_shade orig dir point s t lights = castRay_shade orig' dir' point s t' lights) ∧
    (∀ (orig dir orig' dir' : Vector ℝ) (s : Sphere ℝ) (rest rest' : List (Sphere ℝ))
        (t t' : ℝ) (lights : List (Light ℝ)),
      s.rayIntersect orig dir = some t → t < numeric_limits_max →
      s.rayIntersect orig' dir' = some t' → t' < numeric_limits_max →
      ((orig.add (dir.mulScalar t)).sub s.center).normalized
        = ((orig'.add (dir'.mulScalar t')).sub s.center).normalized →
      castRay orig dir (s :: rest) lights = castRay orig' dir' (s :: rest') lights) := by
  have hstep : ∀ (point : Vector ℝ) (e : ℝ) (acc : ℝ × ℝ) (light : Light ℝ),
      castRay_lightStep point N e acc light
        = (acc.1 + light.intensity * max 0 (dot (light.position.sub point).normalized N),
           acc.2 + light.intensity *
             CMath.pow
               (max 0 (2 * dot (light.position.sub point).normalized N ^ 2
                 - dot (light.position.sub point).normalized
                     (light.position.sub point).normalized)) e) := by
    intro point e acc light
    simp only [castRay_lightStep, dot_neg_reflect]
  refine ⟨dot_neg_reflect l N, ?_, ?_, ?_, ?_⟩
  · intro hl
    rw [dot_neg_reflect, dot_self_of_length_one l hl]
  · intro point e acc light
    refine ⟨hstep point e acc light, fun hne => ?_⟩
    have hlen := normalized_length _ hne
    refine ⟨hlen, ?_⟩
    rw [hstep, dot_self_of_length_one _ hlen]
  · intro orig dir orig' dir' point s t t' lights hN
    rw [castRay_shade_eq_shadeOfNormal, castRay_shade_eq_shadeOfNormal, hN]
  · intro orig dir orig' dir' s rest rest' t t' lights ht hlt ht' hlt' hN
    rw [castRay_cons_hit orig dir s rest lights t ht hlt,
      castRay_cons_hit orig' dir' s rest' lights t' ht' hlt',
      castRay_shade_eq_shadeOfNormal, castRay_shade_eq_shadeOfNormal, hN]

/-- Instance of `castRay_specular_base`: the unit vector `exDir` as `l`; the light `exLight`,
at distance 1 from the local `point`; and the sphere `exNear` seen along `exDir` from the
origin (distance 4) and from `(0, 0, 1)` (distance 5), with the same normal. -/
theorem castRay_specular_base_witness :
    (exDir : Vector ℝ).length = 1 ∧
    dot (exDir : Vector ℝ) (reflect exDir ⟨0, 1, 0⟩).neg
      = 2 * dot (exDir : Vector ℝ) ⟨0, 1, 0⟩ ^ 2 - 1 ∧
    ((exLight : Light ℝ).position.sub Vector.default).length ≠ 0 ∧
    castRay_lightStep Vector.default (⟨0, 1, 0⟩ : Vector ℝ) 1 (0, 0) exLight
      = (0 + (exLight : Light ℝ).intensity
            * max 0 (dot ((exLight : Light ℝ).position.sub Vector.default).normalized
                ⟨0, 1, 0⟩),
         0 + (exLight : Light ℝ).intensity *
           CMath.pow
             (max 0 (2 * dot ((exLight : Light ℝ).position.sub Vector.default).normalized
                 ⟨0, 1, 0⟩ ^ 2 - 1)) 1) ∧
    (exNear : Sphere ℝ).rayIntersect exOrigin exDir = some 4 ∧
    (exNear : Sphere ℝ).rayIntersect ⟨0, 0, 1⟩ exDir = some 5 ∧
    castRay (exOrigin : Vector ℝ) exDir [exNear, exFar] [exLight]
      = castRay ⟨0, 0, 1⟩ exDir [exNear] [exLight] :=
  let h := castRay_specular_base (exDir : Vector ℝ) ⟨0, 1, 0⟩
  ⟨exDir_length, h.2.1 exDir_length, exLight_sub_length,
    ((h.2.2.1 Vector.default 1 (0, 0) exLight).2 exLight_sub_length).2,
    exNear_rayIntersect, exNear_rayIntersect_from_one,
    h.2.2.2.2 exOrigin exDir ⟨0, 0, 1⟩ exDir exNear [exFar] [] 4 5 [exLight]
      exNear_rayIntersect (lt_numeric_limits_max 4 (by norm_num))
      exNear_rayIntersect_from_one (lt_numeric_limits_max 5 (by norm_num))
      exNear_same_normal⟩

end Specular

end PathTracer
